import Mathlib

/-!
Verification of the ordered hierarchical bookmark/group collection engine
(`BookmarkManager`): a shallow embedding of its data model and mutation
operations, with theorems settling the specification claims.

Modelling conventions:
* JavaScript `Date` values are modelled by their millisecond timestamps (`Nat`),
  which is the only way the code consumes them (`getTime()`).
* Optional fields (`groupId?`, `parentId?`, `priority?`) are `Option`s; the
  code's `x ?? 0` defaulting is `effPriority`.
* `generateId()` and `new Date()` results are passed as explicit parameters.
* JavaScript's (ES2019+) stable `Array.prototype.sort(cmp)` is modelled by the
  stable `List.insertionSort` with the relation `fun a b => cmp a b ≤ 0`; for
  the total preorder induced by the comparator there is exactly one sorted
  stable permutation, so any stable sort is a faithful model.
* Methods that mutate the object found by `this.xs.find(...)` are modelled by
  `updateFirst`, which rewrites exactly the first list entry matching the
  predicate, as the aliasing in the source does.
-/

/-- The `Bookmark` interface of the source (file/line/column are the location). -/
structure Bookmark where
  id : String
  label : String
  file : String
  line : Nat
  column : Nat
  description : Option String
  created : Nat
  groupId : Option String
  priority : Option Int
deriving DecidableEq, Repr

/-- The `BookmarkGroup` interface of the source. -/
structure BookmarkGroup where
  id : String
  name : String
  isDefault : Bool
  created : Nat
  parentId : Option String
  priority : Option Int
deriving DecidableEq, Repr

/-- The in-memory state of the `BookmarkManager`: the flat bookmark list and
the flat group list. -/
structure ManagerState where
  bookmarks : List Bookmark
  groups : List BookmarkGroup
deriving DecidableEq, Repr

/-- The `?? 0` defaulting applied to `priority` throughout the source. -/
def effPriority (p : Option Int) : Int := p.getD 0

/-- The `sortBookmarks` comparator: descending effective priority, ties broken
by ascending creation time (source lines 246-252). -/
def cmpBookmarks (a b : Bookmark) : Int :=
  if effPriority a.priority ≠ effPriority b.priority then
    effPriority b.priority - effPriority a.priority
  else (a.created : Int) - (b.created : Int)

/-- The "comes no later than" relation induced by `cmpBookmarks`; a stable sort
by this relation is the meaning of `siblings.sort(this.sortBookmarks)`. -/
def bookmarkLE (a b : Bookmark) : Bool := decide (cmpBookmarks a b ≤ 0)

/-- The group comparator used (inline, with the identical formula) in
`getBookmarksGrouped`, `moveGroupRelative` and the root/sub-group sorts. -/
def cmpGroups (a b : BookmarkGroup) : Int :=
  if effPriority a.priority ≠ effPriority b.priority then
    effPriority b.priority - effPriority a.priority
  else (a.created : Int) - (b.created : Int)

/-- The "comes no later than" relation induced by `cmpGroups`. -/
def groupLE (a b : BookmarkGroup) : Bool := decide (cmpGroups a b ≤ 0)

/-- `bookmarkLE` as a relation, for the sorting lemmas. -/
def bookmarkRel (a b : Bookmark) : Prop := bookmarkLE a b = true

instance : DecidableRel bookmarkRel :=
  fun a b => inferInstanceAs (Decidable (bookmarkLE a b = true))

instance : IsTotal Bookmark bookmarkRel :=
  ⟨fun a b => by
    unfold bookmarkRel bookmarkLE cmpBookmarks
    simp only [decide_eq_true_eq]
    split <;> split <;> omega⟩

instance : IsTrans Bookmark bookmarkRel :=
  ⟨fun a b c => by
    unfold bookmarkRel bookmarkLE cmpBookmarks
    simp only [decide_eq_true_eq]
    split <;> split <;> split <;> omega⟩

/-- `groupLE` as a relation, for the sorting lemmas. -/
def groupRel (a b : BookmarkGroup) : Prop := groupLE a b = true

instance : DecidableRel groupRel :=
  fun a b => inferInstanceAs (Decidable (groupLE a b = true))

instance : IsTotal BookmarkGroup groupRel :=
  ⟨fun a b => by
    unfold groupRel groupLE cmpGroups
    simp only [decide_eq_true_eq]
    split <;> split <;> omega⟩

instance : IsTrans BookmarkGroup groupRel :=
  ⟨fun a b c => by
    unfold groupRel groupLE cmpGroups
    simp only [decide_eq_true_eq]
    split <;> split <;> split <;> omega⟩

/-- Stable sorting of a bookmark list by the ordering policy. -/
def sortBookmarks (l : List Bookmark) : List Bookmark := l.insertionSort bookmarkRel

/-- Stable sorting of a group list by the ordering policy. -/
def sortGroups (l : List BookmarkGroup) : List BookmarkGroup := l.insertionSort groupRel

/-- Replace the first element satisfying `p` by its image under `f`; the
meaning of the source's find-the-object-then-mutate-it pattern. -/
def updateFirst (p : α → Bool) (f : α → α) : List α → List α
  | [] => []
  | x :: xs => if p x then f x :: xs else x :: updateFirst p f xs

/-- `addBookmark` (source lines 92-135): the active editor location and the
label accepted in the input box arrive as parameters; an empty label is the
cancelled input box, a no-op.  The new bookmark joins the current default
group if one exists and gets priority 0. -/
def addBookmark (s : ManagerState) (label file : String) (line column : Nat)
    (newId : String) (now : Nat) : ManagerState :=
  if label = "" then s
  else
    let defaultGroup := s.groups.find? (fun g => g.isDefault)
    let b : Bookmark :=
      ⟨newId, label, file, line, column, none, now, defaultGroup.map (fun g => g.id), some 0⟩
    { s with bookmarks := s.bookmarks ++ [b] }

/-- `removeBookmark` (lines 137-147): splice out the first bookmark with the
given id, if any. -/
def removeBookmark (s : ManagerState) (bid : String) : ManagerState :=
  { s with bookmarks := s.bookmarks.eraseP (fun b => decide (b.id = bid)) }

/-- `renameBookmark` (lines 585-596). -/
def renameBookmark (s : ManagerState) (bid newLabel : String) : Bool × ManagerState :=
  match s.bookmarks.find? (fun b => decide (b.id = bid)) with
  | none => (false, s)
  | some _ =>
    let bks := updateFirst (fun b => decide (b.id = bid))
      (fun b => { b with label := newLabel }) s.bookmarks
    (true, { s with bookmarks := bks })

/-- `setBookmarkPriority` (lines 573-583). -/
def setBookmarkPriority (s : ManagerState) (bid : String) (p : Int) : ManagerState :=
  match s.bookmarks.find? (fun b => decide (b.id = bid)) with
  | none => s
  | some _ =>
    let bks := updateFirst (fun b => decide (b.id = bid))
      (fun b => { b with priority := some p }) s.bookmarks
    { s with bookmarks := bks }

/-- `moveBookmarkToGroup` (lines 398-408). -/
def moveBookmarkToGroup (s : ManagerState) (bid : String) (gid : Option String) : ManagerState :=
  match s.bookmarks.find? (fun b => decide (b.id = bid)) with
  | none => s
  | some _ =>
    let bks := updateFirst (fun b => decide (b.id = bid))
      (fun b => { b with groupId := gid }) s.bookmarks
    { s with bookmarks := bks }

/-- `createGroup` (lines 259-302): empty name is the cancelled input; a sibling
with the same name under the same parent aborts; creating a default group first
clears every other default flag; the new group gets `max priority over all
groups + 1` and is pushed at the back. -/
def createGroup (s : ManagerState) (groupName : String) (isDefault : Bool)
    (parentId : Option String) (newId : String) (now : Nat) :
    Option BookmarkGroup × ManagerState :=
  if groupName = "" then (none, s)
  else
    let siblings := s.groups.filter (fun g => decide (g.parentId = parentId))
    if siblings.any (fun g => decide (g.name = groupName)) then (none, s)
    else
      let gs := if isDefault then s.groups.map (fun g => { g with isDefault := false })
                else s.groups
      let maxPriority := gs.foldl (fun m g => max m (effPriority g.priority)) 0
      let newGroup : BookmarkGroup := ⟨newId, groupName, isDefault, now, parentId,
        some (maxPriority + 1)⟩
      (some newGroup, { s with groups := gs ++ [newGroup] })

/-- `renameGroup` (lines 304-321): missing id or a same-named sibling (other
than itself) aborts. -/
def renameGroup (s : ManagerState) (gid newName : String) : Bool × ManagerState :=
  match s.groups.find? (fun g => decide (g.id = gid)) with
  | none => (false, s)
  | some group =>
    let siblings := s.groups.filter
      (fun g => decide (g.parentId = group.parentId ∧ g.id ≠ gid))
    if siblings.any (fun g => decide (g.name = newName)) then (false, s)
    else
      let gs := updateFirst (fun g => decide (g.id = gid))
        (fun g => { g with name := newName }) s.groups
      (true, { s with groups := gs })

/-- `setGroupAsDefault` (lines 431-450): clear every default flag, then set the
target (when found) default and lift its priority above every group. -/
def setGroupAsDefault (s : ManagerState) (gid : String) : ManagerState :=
  let gs := s.groups.map (fun g => { g with isDefault := false })
  match gs.find? (fun g => decide (g.id = gid)) with
  | none => { s with groups := gs }
  | some _ =>
    let maxPriority := gs.foldl (fun m g => max m (effPriority g.priority)) 0
    let gs2 := updateFirst (fun g => decide (g.id = gid))
      (fun g => { g with isDefault := true, priority := some (maxPriority + 1) }) gs
    { s with groups := gs2 }

/-- The sibling-bucket key of a bookmark: `bm.groupId ?? '__root__'`
(line 461). -/
def keyOf (b : Bookmark) : String := b.groupId.getD "__root__"

/-- The sorted sibling bucket a bookmark is ranked in (lines 461-463). -/
def sibsOf (s : ManagerState) (bm : Bookmark) : List Bookmark :=
  sortBookmarks (s.bookmarks.filter (fun b => decide (keyOf b = keyOf bm)))

/-- The position of a bookmark in its sorted sibling bucket (line 465). -/
def siblingIdx (s : ManagerState) (bm : Bookmark) (bid : String) : Nat :=
  (sibsOf s bm).findIdx (fun b => decide (b.id = bid))

/-- The index of the neighbor in the requested direction (line 468);
`up = true` is the source's `delta = 1` (toward the front). -/
def neighborIdx (idx : Nat) (up : Bool) : Int :=
  if up then (idx : Int) - 1 else (idx : Int) + 1

/-- `moveBookmarkRelative` (lines 455-481): locate the bookmark in its sorted
sibling bucket; with no neighbor in the requested direction return false;
otherwise swap the two effective priority values (writing them back as present
values) and return true. -/
def moveBookmarkRelative (s : ManagerState) (bid : String) (up : Bool) :
    Bool × ManagerState :=
  match s.bookmarks.find? (fun b => decide (b.id = bid)) with
  | none => (false, s)
  | some bm =>
    let sibs := sibsOf s bm
    let idx := sibs.findIdx (fun b => decide (b.id = bid))
    if sibs.length ≤ idx then (false, s)
    else
      let tgt : Int := neighborIdx idx up
      if tgt < 0 ∨ (sibs.length : Int) ≤ tgt then (false, s)
      else
        match sibs[idx]?, sibs[tgt.toNat]? with
        | some a, some b =>
          let pa := effPriority a.priority
          let pb := effPriority b.priority
          let bks1 := updateFirst (fun x => decide (x.id = a.id))
            (fun x => { x with priority := some pb }) s.bookmarks
          let bks2 := updateFirst (fun x => decide (x.id = b.id))
            (fun x => { x with priority := some pa }) bks1
          (true, { s with bookmarks := bks2 })
        | _, _ => (false, s)

/-- `moveGroupRelative` (lines 486-514): the same pairwise swap on the group
sibling bucket (groups sharing the parent id). -/
def moveGroupRelative (s : ManagerState) (gid : String) (up : Bool) :
    Bool × ManagerState :=
  match s.groups.find? (fun g => decide (g.id = gid)) with
  | none => (false, s)
  | some group =>
    let sibs := sortGroups (s.groups.filter (fun g => decide (g.parentId = group.parentId)))
    let idx := sibs.findIdx (fun g => decide (g.id = gid))
    if sibs.length ≤ idx then (false, s)
    else
      let tgt : Int := neighborIdx idx up
      if tgt < 0 ∨ (sibs.length : Int) ≤ tgt then (false, s)
      else
        match sibs[idx]?, sibs[tgt.toNat]? with
        | some a, some b =>
          let pa := effPriority a.priority
          let pb := effPriority b.priority
          let gs1 := updateFirst (fun x => decide (x.id = a.id))
            (fun x => { x with priority := some pb }) s.groups
          let gs2 := updateFirst (fun x => decide (x.id = b.id))
            (fun x => { x with priority := some pa }) gs1
          (true, { s with groups := gs2 })
        | _, _ => (false, s)

/-- The group list with the moving group spliced out (line 535). -/
def restOf (s : ManagerState) (gid : String) : List BookmarkGroup :=
  s.groups.filter (fun g => decide (g.id ≠ gid))

/-- The name-collision check list of `moveGroupToParent` (line 539). -/
def targetSibsOf (s : ManagerState) (gid : String) (p : Option String) :
    List BookmarkGroup :=
  (restOf s gid).filter (fun g => decide (g.parentId = p ∧ g.id ≠ gid))

/-- The siblings under the new parent, moving group excluded (line 548). -/
def oldSibs (s : ManagerState) (gid : String) (p : Option String) :
    List BookmarkGroup :=
  (restOf s gid).filter (fun g => decide (g.parentId = p))

/-- The insertion index of `moveGroupToParent` (lines 551-555): 0 unless a
non-empty `insertBeforeGroupId` is given and found among the target siblings,
in which case its index. -/
def insertPos (s : ManagerState) (gid : String) (p : Option String) :
    Option String → Nat
  | none => 0
  | some tid =>
    if tid = "" then 0
    else
      let j := (oldSibs s gid p).findIdx (fun g => decide (g.id = tid))
      if (oldSibs s gid p).length ≤ j then 0 else j

/-- The dense renumbering loop of `moveGroupToParent` (lines 561-564):
element number `i` (counting from the starting index) gets priority
`total - i`. -/
def renumber (total : Nat) : Nat → List BookmarkGroup → List BookmarkGroup
  | _, [] => []
  | i, g :: gs =>
    { g with priority := some ((total : Int) - (i : Int)) } :: renumber total (i + 1) gs

/-- `moveGroupToParent` (lines 524-571).  NOTE the faithful translation of the
bug on the collision path: the moving group has already been filtered out of
the list when the check fires, and the early return never restores it. -/
def moveGroupToParent (s : ManagerState) (gid : String)
    (newParentId insertBeforeId : Option String) : ManagerState :=
  match s.groups.find? (fun g => decide (g.id = gid)) with
  | none => s
  | some movingGroup =>
    if (targetSibsOf s gid newParentId).any (fun g => decide (g.name = movingGroup.name)) then
      { s with groups := restOf s gid }
    else
      let moved := { movingGroup with parentId := newParentId }
      let sibs := oldSibs s gid newParentId
      let j := insertPos s gid newParentId insertBeforeId
      let spliced := sibs.take j ++ moved :: sibs.drop j
      let others := (restOf s gid).filter (fun g => decide (g.parentId ≠ newParentId))
      { s with groups := others ++ renumber spliced.length 0 spliced }

/-- The sibling bucket of a parent id: the groups stored with that parent. -/
def bucketOf (s : ManagerState) (p : Option String) : List BookmarkGroup :=
  s.groups.filter (fun g => decide (g.parentId = p))

/-- `removeGroup` (lines 369-396), fuel-indexed.  The source recursion
`removeGroup(sub.id)` for each direct child, then re-parent the group's own
bookmarks to `group.parentId`, then delete the group record.  A whole list of
pending ids is processed so that the per-child recursion of the source is one
recursive call on the child list; fuel only decreases when descending into a
child list, mirroring the source's recursion depth. -/
def removeGroupAux : Nat → ManagerState → List String → ManagerState
  | _, s, [] => s
  | 0, s, _ :: _ => s
  | fuel + 1, s, gid :: rest =>
    match s.groups.find? (fun g => decide (g.id = gid)) with
    | none => removeGroupAux (fuel + 1) s rest
    | some group =>
      let subs := (s.groups.filter (fun h => decide (h.parentId = some gid))).map
        (fun h => h.id)
      let s1 := removeGroupAux fuel s subs
      let bks := s1.bookmarks.map
        (fun b => if b.groupId = some gid then { b with groupId := group.parentId } else b)
      let s2 : ManagerState := ⟨bks, s1.groups.filter (fun h => decide (h.id ≠ gid))⟩
      removeGroupAux (fuel + 1) s2 rest
termination_by fuel _ gids => (fuel, gids.length)

/-- `removeGroup` on one id; the group count bounds the recursion depth of the
source on any well-formed (forest-shaped) state. -/
def removeGroup (s : ManagerState) (gid : String) : ManagerState :=
  removeGroupAux s.groups.length s [gid]

/-- Number of groups carrying the default flag. -/
def countDefaults (s : ManagerState) : Nat := s.groups.countP (fun g => g.isDefault)

/-- The operations quantified over by the single-default claim. -/
inductive GOp where
  | createG : String → Bool → Option String → String → Nat → GOp
  | setDefault : String → GOp

/-- Apply one group operation to the current state. -/
def applyGOp (s : ManagerState) : GOp → ManagerState
  | GOp.createG n d p i t => (createGroup s n d p i t).2
  | GOp.setDefault gid => setGroupAsDefault s gid

/-- Apply a sequence of group operations, each to the state the previous one
produced. -/
def runGOps (s : ManagerState) (ops : List GOp) : ManagerState := ops.foldl applyGOp s

/-- Whether a group operation requests a default: a `createGroup` with the
default flag set, or any `setGroupAsDefault` call. -/
def requestsDefault : GOp → Bool
  | GOp.createG _ d _ _ _ => d
  | GOp.setDefault _ => true

/-- The twelve public mutation operations, with their call arguments. -/
inductive MutOp where
  | addBk : String → String → Nat → Nat → String → Nat → MutOp
  | removeBk : String → MutOp
  | renameBk : String → String → MutOp
  | setBkPriority : String → Int → MutOp
  | moveBkToGroup : String → Option String → MutOp
  | moveBkRelative : String → Bool → MutOp
  | createG : String → Bool → Option String → String → Nat → MutOp
  | renameG : String → String → MutOp
  | removeG : String → MutOp
  | moveGRelative : String → Bool → MutOp
  | moveGToParent : String → Option String → Option String → MutOp
  | setGDefault : String → MutOp

/-- Apply one public mutation to a state (discarding boolean results). -/
def applyMutOp (s : ManagerState) : MutOp → ManagerState
  | MutOp.addBk label file line col i t => addBookmark s label file line col i t
  | MutOp.removeBk bid => removeBookmark s bid
  | MutOp.renameBk bid l => (renameBookmark s bid l).2
  | MutOp.setBkPriority bid p => setBookmarkPriority s bid p
  | MutOp.moveBkToGroup bid g => moveBookmarkToGroup s bid g
  | MutOp.moveBkRelative bid u => (moveBookmarkRelative s bid u).2
  | MutOp.createG n d p i t => (createGroup s n d p i t).2
  | MutOp.renameG g n => (renameGroup s g n).2
  | MutOp.removeG g => removeGroup s g
  | MutOp.moveGRelative g u => (moveGroupRelative s g u).2
  | MutOp.moveGToParent g p ib => moveGroupToParent s g p ib
  | MutOp.setGDefault g => setGroupAsDefault s g

/-- Which public mutations' bodies begin with `await this.ready` before they
read or write `this.bookmarks` / `this.groups`, read off the source:
`createGroup` (line 259) and `removeGroup` (line 369) do not; the other ten
listed mutations all do (lines 93, 138, 305, 402, 432, 456, 487, 529, 577,
586). -/
def awaitsReady : MutOp → Bool
  | MutOp.createG _ _ _ _ _ => false
  | MutOp.removeG _ => false
  | _ => true

/-- `loadData` (lines 58-79): install the stored snapshots, normalising every
stored group priority with `?? 0`. -/
def loadData (storedBookmarks : List Bookmark) (storedGroups : List BookmarkGroup) :
    ManagerState :=
  ⟨storedBookmarks,
   storedGroups.map (fun g => { g with priority := some (effPriority g.priority) })⟩

/-- The in-memory state after constructing the manager over a storage holding
the given snapshots, invoking one mutation immediately (before the initial
asynchronous load has completed), and then letting the load finish.  A mutation
that awaits the ready signal runs against the loaded state.  One that does not
runs against the initial empty lists, after which `loadData` reassigns
`this.bookmarks` / `this.groups` wholesale from storage — discarding the
mutation's in-memory effect, so the surviving state is just the loaded one. -/
def invokeBeforeLoad (op : MutOp) (sb : List Bookmark) (sg : List BookmarkGroup) :
    ManagerState :=
  if awaitsReady op then applyMutOp (loadData sb sg) op else loadData sb sg

/-- Whether the operation is `createGroup` or `removeGroup`. -/
def isGroupStructOp : MutOp → Bool
  | MutOp.createG _ _ _ _ _ => true
  | MutOp.removeG _ => true
  | _ => false

/-- A bookmark with effective priority 2. -/
def bkHi : Bookmark := ⟨"w1", "hi", "f", 0, 0, none, 5, none, some 2⟩

/-- A bookmark with effective priority 1. -/
def bkLo : Bookmark := ⟨"w2", "lo", "f", 1, 0, none, 3, none, some 1⟩

/-- Group named "X" at root; sibling of the collision in the C1 input. -/
def c1A : BookmarkGroup := ⟨"a", "X", false, 0, none, some 2⟩

/-- Root group "P", parent of the moving group in the C1 input. -/
def c1P : BookmarkGroup := ⟨"p", "P", false, 0, none, some 3⟩

/-- The moving group of the C1 input: named "X", nested under "p". -/
def c1B : BookmarkGroup := ⟨"b", "X", false, 1, some "p", some 1⟩

/-- The C1 failing input: two groups named "X" (one root, one nested). -/
def c1State : ManagerState := ⟨[], [c1A, c1P, c1B]⟩

/-- A group whose name is the empty string (reachable via `renameGroup`, which
does not reject empty names). -/
def c8g : BookmarkGroup := ⟨"g1", "", false, 0, none, some 1⟩

/-- The C8 counterexample state: one root group named `""`. -/
def c8State : ManagerState := ⟨[], [c8g]⟩

/-- First-ranked bookmark of the C7 witness state. -/
def w7a : Bookmark := ⟨"b1", "one", "f", 0, 0, none, 0, none, some 2⟩

/-- Last-ranked bookmark of the C7 witness state. -/
def w7b : Bookmark := ⟨"b2", "two", "f", 1, 0, none, 1, none, some 1⟩

/-- The C7 witness state: two ungrouped bookmarks. -/
def w7s : ManagerState := ⟨[w7a, w7b], []⟩

/-- Every observable field of a bookmark, with the priority taken at its
effective (`?? 0`) value. -/
def bookKey (x : Bookmark) :
    String × String × String × Nat × Nat × Option String × Nat × Option String × Int :=
  (x.id, x.label, x.file, x.line, x.column, x.description, x.created, x.groupId,
    effPriority x.priority)

/-- C10 witness bookmark: explicit priority 0. -/
def w10a : Bookmark := ⟨"c1", "x", "f", 0, 0, none, 0, none, some 0⟩

/-- C10 witness bookmark: absent priority (effective 0). -/
def w10b : Bookmark := ⟨"c2", "y", "f", 1, 0, none, 1, none, none⟩

/-- The C10 witness state: two ungrouped bookmarks with equal effective
priority. -/
def w10s : ManagerState := ⟨[w10a, w10b], []⟩

/-- C4 witness: the group being moved (root-level, named "X"). -/
def w4x : BookmarkGroup := ⟨"x", "X", false, 0, none, some 1⟩

/-- C4 witness: target parent group "p". -/
def w4p : BookmarkGroup := ⟨"p", "P", false, 0, none, some 9⟩

/-- C4 witness: existing sibling "A" under "p". -/
def w4a : BookmarkGroup := ⟨"a", "A", false, 1, some "p", some 2⟩

/-- C4 witness: existing sibling "B" under "p". -/
def w4b : BookmarkGroup := ⟨"b", "B", false, 2, some "p", some 1⟩

/-- The C4 witness state. -/
def w4s : ManagerState := ⟨[], [w4p, w4a, w4b, w4x]⟩

/-- A state reached by four ordinary `createGroup` calls: "p" and "x" at root,
"g1" then "g2" under "p".  Each creation appends at the back with
max-overall-priority + 1, so the stored order under "p" is [g1, g2] while the
displayed (Ordering-Policy) order is [g2, g1]. -/
def c4s : ManagerState :=
  (createGroup
    (createGroup
      (createGroup
        (createGroup ⟨[], []⟩ "P" false none "p" 0).2
        "G1" false (some "p") "g1" 1).2
      "G2" false (some "p") "g2" 2).2
    "X" false none "x" 3).2

/-- The cumulative bookmark re-parenting a removeGroup cascade performs: a
bookmark whose stored group id is one of the removed ids `R` ends at the
removal root's parent `P` (source lines 381-386, applied once per removed
group, cascading child bookmarks upward to the root's parent); other
bookmarks are untouched. -/
def reassignTo (P : Option String) (R : List String) (b : Bookmark) : Bookmark :=
  match b.groupId with
  | none => b
  | some g => if g ∈ R then { b with groupId := P } else b

/-- `DescOf s root x`: group id `x` is `root` itself or the id of a group
reachable downward from `root` through stored `parentId` links. -/
inductive DescOf (s : ManagerState) (root : String) : String → Prop where
  | self : DescOf s root root
  | child (g : BookmarkGroup) (x : String) : g ∈ s.groups → g.parentId = some x →
      DescOf s root x → DescOf s root g.id

/-- Forest shape, phrased with a rank function: every stored child has a
strictly smaller rank than its parent.  A cyclic parent graph admits no such
rank; on it the source `removeGroup` recursion diverges. -/
def parentsRankedB (rk : String → Nat) (s : ManagerState) : Bool :=
  s.groups.all (fun g => s.groups.all (fun h =>
    if h.parentId = some g.id then decide (rk h.id < rk g.id) else true))

/-- Every group's rank is below the group count (so the count bounds the
recursion depth). -/
def rankBoundB (rk : String → Nat) (s : ManagerState) : Bool :=
  s.groups.all (fun g => decide (rk g.id < s.groups.length))

/-- Every bookmark's stored groupId references an existing group. -/
def bookmarkRefsOkB (s : ManagerState) : Bool :=
  s.bookmarks.all (fun b => match b.groupId with
    | none => true
    | some q => s.groups.any (fun g => decide (g.id = q)))

/-- Every group's stored parentId references an existing group. -/
def parentRefsOkB (s : ManagerState) : Bool :=
  s.groups.all (fun g => match g.parentId with
    | none => true
    | some q => s.groups.any (fun h => decide (h.id = q)))

/-- C5 witness: root-level group "p". -/
def w5p : BookmarkGroup := ⟨"p", "P", false, 0, none, some 3⟩

/-- C5 witness: group "g" under "p" (the one removed). -/
def w5g : BookmarkGroup := ⟨"g", "G", false, 1, some "p", some 2⟩

/-- C5 witness: group "c", child of "g". -/
def w5c : BookmarkGroup := ⟨"c", "C", false, 2, some "g", some 1⟩

/-- C5 witness: a bookmark owned by the grandchild group "c". -/
def w5b1 : Bookmark := ⟨"b1", "one", "f.ts", 1, 0, none, 10, some "c", some 1⟩

/-- C5 witness: a bookmark owned directly by "g". -/
def w5b2 : Bookmark := ⟨"b2", "two", "f.ts", 2, 0, none, 11, some "g", none⟩

/-- C5 witness: an ungrouped bookmark. -/
def w5b3 : Bookmark := ⟨"b3", "three", "f.ts", 3, 0, none, 12, none, some 5⟩

/-- The C5 witness state: a three-level chain p > g > c with bookmarks. -/
def w5s : ManagerState := ⟨[w5b1, w5b2, w5b3], [w5p, w5g, w5c]⟩

/-- A concrete rank for the C5 witness forest. -/
def w5rk : String → Nat := fun x => if x = "p" then 2 else if x = "g" then 1 else 0

theorem bookmarkLE_iff (a b : Bookmark) :
    bookmarkLE a b = true ↔
      (effPriority b.priority < effPriority a.priority ∨
        (effPriority a.priority = effPriority b.priority ∧ a.created ≤ b.created)) := by
  simp only [bookmarkLE, cmpBookmarks, decide_eq_true_eq]
  split <;> omega

theorem groupLE_iff (a b : BookmarkGroup) :
    groupLE a b = true ↔
      (effPriority b.priority < effPriority a.priority ∨
        (effPriority a.priority = effPriority b.priority ∧ a.created ≤ b.created)) := by
  simp only [groupLE, cmpGroups, decide_eq_true_eq]
  split <;> omega

theorem bookmarkLE_total (a b : Bookmark) : (bookmarkLE a b || bookmarkLE b a) = true := by
  rw [Bool.or_eq_true, bookmarkLE_iff, bookmarkLE_iff]
  omega

theorem bookmarkLE_trans (a b c : Bookmark) (h1 : bookmarkLE a b = true)
    (h2 : bookmarkLE b c = true) : bookmarkLE a c = true := by
  rw [bookmarkLE_iff] at h1 h2 ⊢
  omega

theorem groupLE_total (a b : BookmarkGroup) : (groupLE a b || groupLE b a) = true := by
  rw [Bool.or_eq_true, groupLE_iff, groupLE_iff]
  omega

theorem groupLE_trans (a b c : BookmarkGroup) (h1 : groupLE a b = true)
    (h2 : groupLE b c = true) : groupLE a c = true := by
  rw [groupLE_iff] at h1 h2 ⊢
  omega

/-- C9: the ordering policy is a total, transitive comparison rule; strictly
higher effective priority sorts strictly before; equal priorities are resolved
by earlier creation time; sorting is a permutation producing a list ordered by
the rule; the sort is stable (any two elements already in the relation keep
their relative order); and bookmarks and groups use the identical rule. -/
theorem C9_ordering_policy :
    (∀ a b : Bookmark, (bookmarkLE a b || bookmarkLE b a) = true) ∧
    (∀ a b c : Bookmark, bookmarkLE a b = true → bookmarkLE b c = true → bookmarkLE a c = true) ∧
    (∀ a b : Bookmark, effPriority b.priority < effPriority a.priority →
      bookmarkLE a b = true ∧ bookmarkLE b a = false) ∧
    (∀ a b : Bookmark, effPriority a.priority = effPriority b.priority →
      a.created < b.created → bookmarkLE a b = true ∧ bookmarkLE b a = false) ∧
    (∀ l : List Bookmark, List.Perm (sortBookmarks l) l ∧
      (sortBookmarks l).Pairwise bookmarkRel) ∧
    (∀ (l : List Bookmark) (a b : Bookmark), bookmarkLE a b = true →
      List.Sublist [a, b] l → List.Sublist [a, b] (sortBookmarks l)) ∧
    (∀ a b : BookmarkGroup, (groupLE a b || groupLE b a) = true) ∧
    (∀ a b : BookmarkGroup, effPriority b.priority < effPriority a.priority →
      groupLE a b = true ∧ groupLE b a = false) ∧
    (∀ a b : BookmarkGroup, effPriority a.priority = effPriority b.priority →
      a.created < b.created → groupLE a b = true ∧ groupLE b a = false) ∧
    (∀ (l : List BookmarkGroup) (a b : BookmarkGroup), groupLE a b = true →
      List.Sublist [a, b] l → List.Sublist [a, b] (sortGroups l)) ∧
    (∀ (a b : Bookmark) (ga gb : BookmarkGroup),
      a.priority = ga.priority → b.priority = gb.priority →
      a.created = ga.created → b.created = gb.created →
      bookmarkLE a b = groupLE ga gb) := by
  refine ⟨bookmarkLE_total, bookmarkLE_trans, ?_, ?_, ?_, ?_, groupLE_total, ?_, ?_, ?_, ?_⟩
  · intro a b h
    constructor
    · rw [bookmarkLE_iff]; omega
    · rw [Bool.eq_false_iff, Ne, bookmarkLE_iff]; omega
  · intro a b h1 h2
    constructor
    · rw [bookmarkLE_iff]; omega
    · rw [Bool.eq_false_iff, Ne, bookmarkLE_iff]; omega
  · intro l
    exact ⟨List.perm_insertionSort bookmarkRel l, List.sorted_insertionSort bookmarkRel l⟩
  · intro l a b hab h
    exact List.sublist_insertionSort (List.pairwise_pair.mpr hab) h
  · intro a b h
    constructor
    · rw [groupLE_iff]; omega
    · rw [Bool.eq_false_iff, Ne, groupLE_iff]; omega
  · intro a b h1 h2
    constructor
    · rw [groupLE_iff]; omega
    · rw [Bool.eq_false_iff, Ne, groupLE_iff]; omega
  · intro l a b hab h
    exact List.sublist_insertionSort (List.pairwise_pair.mpr hab) h
  · intro a b ga gb hp1 hp2 hc1 hc2
    simp [bookmarkLE, groupLE, cmpBookmarks, cmpGroups, hp1, hp2, hc1, hc2]

/-- Witness for C9 at a concrete pair of bookmarks. -/
theorem C9_witness : bookmarkLE bkHi bkLo = true ∧ bookmarkLE bkLo bkHi = false :=
  C9_ordering_policy.2.2.1 bkHi bkLo (by decide)

/-- C1: evaluating `moveGroupToParent` at the failing input: moving group "b"
(named "X") to the root, where another group "a" already has name "X", hits the
collision path, yet the resulting group list has LOST the moving group "b"
instead of being unchanged: the code filters the moving group out before the
name check and the early return never restores it. -/
theorem C1_collision_drops_moving_group :
    (targetSibsOf c1State "b" none).any (fun g => decide (g.name = c1B.name)) = true ∧
    (moveGroupToParent c1State "b" none none).groups = [c1A, c1P] ∧
    moveGroupToParent c1State "b" none none ≠ c1State := by decide

/-- C8 counterexample: the colliding name `""` exists only under a different
parent (the root) than the requested parent `"p"`, so the claim as stated says
the call succeeds and appends; but `createGroup` rejects every empty name
first, returns no group, and leaves the list unchanged. -/
theorem C8_counterexample :
    (c8g ∈ c8State.groups ∧ c8g.name = "" ∧ c8g.parentId ≠ some "p") ∧
    (∀ g ∈ c8State.groups, ¬(g.parentId = some "p" ∧ g.name = "")) ∧
    (createGroup c8State "" false (some "p") "g2" 5).1 = none ∧
    (createGroup c8State "" false (some "p") "g2" 5).2 = c8State := by decide

theorem createGroup_collision_fails (s : ManagerState) (n : String) (d : Bool)
    (p : Option String) (i : String) (t : Nat)
    (h : ∃ g ∈ s.groups, g.parentId = p ∧ g.name = n) :
    createGroup s n d p i t = (none, s) := by
  obtain ⟨g, hg, hp, hn⟩ := h
  unfold createGroup
  by_cases hn0 : n = ""
  · simp [hn0]
  · have hany : (s.groups.filter (fun g => decide (g.parentId = p))).any
        (fun g => decide (g.name = n)) = true := by
      simp only [List.any_eq_true, List.mem_filter, decide_eq_true_eq]
      exact ⟨g, ⟨hg, hp⟩, hn⟩
    simp [hn0, hany]

theorem createGroup_success (s : ManagerState) (n : String) (d : Bool)
    (p : Option String) (i : String) (t : Nat)
    (hne : n ≠ "") (hno : ∀ g ∈ s.groups, g.parentId = p → g.name ≠ n) :
    createGroup s n d p i t =
      (some ⟨i, n, d, t, p, some
          (((if d then s.groups.map (fun g => { g with isDefault := false })
              else s.groups).foldl (fun m g => max m (effPriority g.priority)) 0) + 1)⟩,
       { s with groups :=
          (if d then s.groups.map (fun g => { g with isDefault := false }) else s.groups)
          ++ [⟨i, n, d, t, p, some
            (((if d then s.groups.map (fun g => { g with isDefault := false })
                else s.groups).foldl (fun m g => max m (effPriority g.priority)) 0) + 1)⟩] }) := by
  have hany : (s.groups.filter (fun g => decide (g.parentId = p))).any
      (fun g => decide (g.name = n)) = false := by
    rw [Bool.eq_false_iff]
    intro hc
    rw [List.any_eq_true] at hc
    obtain ⟨g, hgf, hgn⟩ := hc
    rw [List.mem_filter] at hgf
    exact hno g hgf.1 (of_decide_eq_true hgf.2) (of_decide_eq_true hgn)
  unfold createGroup
  simp [hne, hany]

/-- C8 amended: with a non-empty requested name, a same-name sibling under the
same parent makes `createGroup` fail leaving the state unchanged, and absence
of a same-name same-parent sibling makes it succeed, appending one new group
(other groups only have their default flag cleared when the new group is
default). -/
theorem C8_amended :
    (∀ (s : ManagerState) (n : String) (d : Bool) (p : Option String) (i : String) (t : Nat),
      (∃ g ∈ s.groups, g.parentId = p ∧ g.name = n) →
      createGroup s n d p i t = (none, s)) ∧
    (∀ (s : ManagerState) (n : String) (d : Bool) (p : Option String) (i : String) (t : Nat),
      n ≠ "" → (∀ g ∈ s.groups, g.parentId = p → g.name ≠ n) →
      ∃ ng, (createGroup s n d p i t).1 = some ng ∧ ng.name = n ∧ ng.parentId = p ∧
        (createGroup s n d p i t).2.groups =
          (if d then s.groups.map (fun g => { g with isDefault := false }) else s.groups)
            ++ [ng]) := by
  constructor
  · exact createGroup_collision_fails
  · intro s n d p i t hne hno
    rw [createGroup_success s n d p i t hne hno]
    exact ⟨_, rfl, rfl, rfl, rfl⟩

/-- Witness for C8 at a concrete successful creation. -/
theorem C8_witness :
    ∃ ng, (createGroup ⟨[], []⟩ "a" false none "g1" 0).1 = some ng ∧ ng.name = "a" ∧
      ng.parentId = none ∧
      (createGroup ⟨[], []⟩ "a" false none "g1" 0).2.groups =
        (if false then ([] : List BookmarkGroup).map (fun g => { g with isDefault := false })
          else ([] : List BookmarkGroup)) ++ [ng] :=
  C8_amended.2 ⟨[], []⟩ "a" false none "g1" 0 (by decide) (by intro g hg; cases hg)

theorem countP_updateFirst_le (p q : α → Bool) (f : α → α) (l : List α) :
    (updateFirst p f l).countP q ≤ l.countP q + 1 := by
  induction l with
  | nil => simp [updateFirst]
  | cons x xs ih =>
    by_cases h : p x
    · simp only [updateFirst, if_pos h, List.countP_cons]
      split_ifs <;> omega
    · simp only [updateFirst, if_neg h, List.countP_cons]
      split_ifs <;> omega

theorem createGroup_fail_state (s : ManagerState) (n : String) (d : Bool)
    (p : Option String) (i : String) (t : Nat)
    (h : (createGroup s n d p i t).1 = none) : (createGroup s n d p i t).2 = s := by
  by_cases h0 : n = ""
  · simp [createGroup, h0]
  · by_cases h1 : ∃ g ∈ s.groups, g.parentId = p ∧ g.name = n
    · rw [createGroup_collision_fails s n d p i t h1]
    · exfalso
      have hno : ∀ g ∈ s.groups, g.parentId = p → g.name ≠ n := by
        intro g hg hp hn
        exact h1 ⟨g, hg, hp, hn⟩
      rw [createGroup_success s n d p i t h0 hno] at h
      simp at h

theorem countDefaults_setGroupAsDefault (s : ManagerState) (gid : String) :
    countDefaults (setGroupAsDefault s gid) ≤ 1 := by
  simp only [setGroupAsDefault, countDefaults]
  have hzero : (s.groups.map (fun g => { g with isDefault := false })).countP
      (fun g => g.isDefault) = 0 := by
    rw [List.countP_eq_zero]
    intro a ha
    rw [List.mem_map] at ha
    obtain ⟨b, _, rfl⟩ := ha
    simp
  split
  · dsimp only
    rw [hzero]
    omega
  · exact le_trans (countP_updateFirst_le _ _ _ _) (by simp [hzero])

theorem countDefaults_createGroup_success (s : ManagerState) (n : String) (d : Bool)
    (p : Option String) (i : String) (t : Nat) (g : BookmarkGroup)
    (h : (createGroup s n d p i t).1 = some g) :
    countDefaults (createGroup s n d p i t).2 =
      if d then 1 else countDefaults s := by
  by_cases h0 : n = ""
  · simp [createGroup, h0] at h
  · by_cases h1 : ∃ g ∈ s.groups, g.parentId = p ∧ g.name = n
    · rw [createGroup_collision_fails s n d p i t h1] at h
      simp at h
    · have hno : ∀ g ∈ s.groups, g.parentId = p → g.name ≠ n := by
        intro g hg hp hn
        exact h1 ⟨g, hg, hp, hn⟩
      rw [createGroup_success s n d p i t h0 hno]
      cases d with
      | true =>
        have hzero : (s.groups.map (fun g => { g with isDefault := false })).countP
            (fun g => g.isDefault) = 0 := by
          rw [List.countP_eq_zero]
          intro a ha
          rw [List.mem_map] at ha
          obtain ⟨b, _, rfl⟩ := ha
          simp
        simp [countDefaults, List.countP_append, hzero]
      | false => simp [countDefaults, List.countP_append]

theorem countDefaults_applyGOp_le (s : ManagerState) (op : GOp)
    (h : countDefaults s ≤ 1) : countDefaults (applyGOp s op) ≤ 1 := by
  cases op with
  | createG n d p i t =>
    simp only [applyGOp]
    cases hr : (createGroup s n d p i t).1 with
    | none => rw [createGroup_fail_state s n d p i t hr]; exact h
    | some g =>
      rw [countDefaults_createGroup_success s n d p i t g hr]
      split <;> omega
  | setDefault gid => exact countDefaults_setGroupAsDefault s gid

/-- C2 counterexample: `createGroup(isDefault := true)` succeeds, then
`setGroupAsDefault` on an id that matches no group clears every default flag
and sets none — zero (not exactly one) groups are default afterwards. -/
theorem C2_counterexample :
    ¬ countDefaults
        (runGOps ⟨[], []⟩ [GOp.createG "a" true none "g1" 0, GOp.setDefault "zz"]) = 1 := by
  decide

/-- C3 counterexample: `createGroup` does not await the ready signal; invoked
immediately after construction its effect is lost when the initial load
completes, unlike the same call applied after the load. -/
theorem C3_counterexample :
    invokeBeforeLoad (MutOp.createG "a" false none "g1" 0) [] [] ≠
      applyMutOp (loadData [] []) (MutOp.createG "a" false none "g1" 0) := by
  decide

/-- C3 amended: every public mutation except `createGroup` and `removeGroup`
awaits the internal ready signal, so invoking it before the initial load has
completed is the same as invoking it on the loaded state; `createGroup` and
`removeGroup` do not await the signal. -/
theorem C3_amended :
    (∀ (op : MutOp) (sb : List Bookmark) (sg : List BookmarkGroup),
      isGroupStructOp op = false →
      invokeBeforeLoad op sb sg = applyMutOp (loadData sb sg) op) ∧
    (∀ n d p i t, awaitsReady (MutOp.createG n d p i t) = false) ∧
    (∀ g, awaitsReady (MutOp.removeG g) = false) := by
  refine ⟨?_, fun _ _ _ _ _ => rfl, fun _ => rfl⟩
  intro op sb sg h
  cases op <;> first | rfl | exact absurd h (by simp [isGroupStructOp])

/-- Witness for C3 at a concrete awaited mutation. -/
theorem C3_witness :
    invokeBeforeLoad (MutOp.removeBk "x") [] [] =
      applyMutOp (loadData [] []) (MutOp.removeBk "x") :=
  C3_amended.1 (MutOp.removeBk "x") [] [] rfl

theorem mem_sibsOf_self (s : ManagerState) (bm : Bookmark) (hbmem : bm ∈ s.bookmarks) :
    bm ∈ sibsOf s bm := by
  unfold sibsOf sortBookmarks
  rw [List.mem_insertionSort]
  exact List.mem_filter.mpr ⟨hbmem, by simp⟩

/-- C7: a bookmark ranked first in its sorted sibling bucket cannot move
toward the front — `moveBookmarkRelative` returns false and the whole state
(in particular every priority) is unchanged; symmetrically for the last-ranked
bookmark and a move toward the back. -/
theorem C7_boundary_noop (s : ManagerState) (bid : String) (bm : Bookmark)
    (hfind : s.bookmarks.find? (fun b => decide (b.id = bid)) = some bm) :
    (siblingIdx s bm bid = 0 → moveBookmarkRelative s bid true = (false, s)) ∧
    (siblingIdx s bm bid = (sibsOf s bm).length - 1 →
      moveBookmarkRelative s bid false = (false, s)) := by
  have hbmem : bm ∈ s.bookmarks := List.mem_of_find?_eq_some hfind
  have hsib : bm ∈ sibsOf s bm := mem_sibsOf_self s bm hbmem
  have hpos : 0 < (sibsOf s bm).length := List.length_pos.mpr (List.ne_nil_of_mem hsib)
  constructor
  · intro h0
    simp only [moveBookmarkRelative, hfind]
    rw [show (sibsOf s bm).findIdx (fun b => decide (b.id = bid)) = 0 from h0]
    rw [if_neg (by omega)]
    rw [if_pos (Or.inl (by norm_num [neighborIdx]))]
  · intro h0
    simp only [moveBookmarkRelative, hfind]
    rw [show (sibsOf s bm).findIdx (fun b => decide (b.id = bid)) =
      (sibsOf s bm).length - 1 from h0]
    rw [if_neg (by omega)]
    rw [if_pos (Or.inr (by
      show ((sibsOf s bm).length : Int) ≤ neighborIdx ((sibsOf s bm).length - 1) false
      unfold neighborIdx
      simp only [Bool.false_eq_true, if_false]
      omega))]

/-- Witness for C7: the first-ranked bookmark of a two-element bucket cannot
move toward the front. -/
theorem C7_witness : moveBookmarkRelative w7s "b1" true = (false, w7s) :=
  (C7_boundary_noop w7s "b1" w7a (by decide)).1 (by decide)

theorem filter_key_len_le_one {α β : Type _} [DecidableEq β] {l : List α} {f : α → β}
    (hnd : (l.map f).Nodup) (c : β) :
    (l.filter (fun x => decide (f x = c))).length ≤ 1 := by
  induction l with
  | nil => simp
  | cons x xs ih =>
    rw [List.map_cons, List.nodup_cons] at hnd
    by_cases hx : f x = c
    · rw [List.filter_cons_of_pos (by simpa using hx)]
      have hnil : xs.filter (fun x => decide (f x = c)) = [] := by
        rw [List.filter_eq_nil_iff]
        intro y hy hyc
        rw [decide_eq_true_eq] at hyc
        exact hnd.1 (List.mem_map.mpr ⟨y, hy, by rw [hyc, hx]⟩)
      simp [hnil]
    · rw [List.filter_cons_of_neg (by simpa using hx)]
      exact ih hnd.2

theorem updateFirst_eq_map (p : α → Bool) (f : α → α) (l : List α)
    (h : (l.filter p).length ≤ 1) :
    updateFirst p f l = l.map (fun x => if p x then f x else x) := by
  induction l with
  | nil => rfl
  | cons x xs ih =>
    by_cases hx : p x
    · simp only [updateFirst, if_pos hx, List.map_cons, if_pos hx]
      rw [List.filter_cons_of_pos hx] at h
      simp only [List.length_cons] at h
      have hall : ∀ y ∈ xs, ¬ p y = true := by
        rw [← List.filter_eq_nil_iff]
        exact List.length_eq_zero.mp (by omega)
      congr 1
      calc xs = xs.map id := (List.map_id xs).symm
        _ = xs.map (fun x => if p x then f x else x) :=
          List.map_congr_left (fun y hy => by simp [hall y hy])
    · simp only [updateFirst, if_neg hx, List.map_cons, if_neg hx]
      rw [List.filter_cons_of_neg hx] at h
      rw [ih h]

theorem swap_updates_eq_map (a b : Bookmark) (pa pb : Int) (l : List Bookmark)
    (hnd : (l.map (fun x => x.id)).Nodup) (hab : a.id ≠ b.id) :
    updateFirst (fun x => decide (x.id = b.id)) (fun x => { x with priority := some pa })
      (updateFirst (fun x => decide (x.id = a.id)) (fun x => { x with priority := some pb }) l)
    = l.map (fun x =>
        if x.id = a.id then { x with priority := some pb }
        else if x.id = b.id then { x with priority := some pa } else x) := by
  rw [updateFirst_eq_map _ _ _ (filter_key_len_le_one hnd a.id)]
  have hid : ((fun x : Bookmark => x.id) ∘
      fun x => if decide (x.id = a.id) = true then { x with priority := some pb } else x)
      = fun x : Bookmark => x.id := by
    funext x
    by_cases h : x.id = a.id <;> simp [h]
  have hnd2 : ((l.map (fun x =>
      if decide (x.id = a.id) = true then { x with priority := some pb } else x)).map
        (fun x => x.id)).Nodup := by
    rw [List.map_map, hid]
    exact hnd
  rw [updateFirst_eq_map _ _ _ (filter_key_len_le_one hnd2 b.id)]
  rw [List.map_map]
  apply List.map_congr_left
  intro x _
  by_cases h1 : x.id = a.id
  · simp [Function.comp_apply, h1, hab]
  · by_cases h2 : x.id = b.id
    · simp [Function.comp_apply, h1, h2, Ne.symm hab]
    · simp [Function.comp_apply, h1, h2]

theorem sibsOf_map_id_nodup (s : ManagerState) (bm : Bookmark)
    (hnd : (s.bookmarks.map (fun x => x.id)).Nodup) :
    ((sibsOf s bm).map (fun x => x.id)).Nodup := by
  have hfilter : ((s.bookmarks.filter (fun x => decide (keyOf x = keyOf bm))).map
      (fun x => x.id)).Nodup :=
    List.Nodup.sublist (List.Sublist.map _ (List.filter_sublist s.bookmarks)) hnd
  have hperm : List.Perm ((sibsOf s bm).map (fun x => x.id))
      ((s.bookmarks.filter (fun x => decide (keyOf x = keyOf bm))).map (fun x => x.id)) :=
    List.Perm.map _ (List.perm_insertionSort bookmarkRel _)
  exact hperm.nodup_iff.mpr hfilter

theorem mem_of_mem_sibsOf {s : ManagerState} {bm x : Bookmark} (h : x ∈ sibsOf s bm) :
    x ∈ s.bookmarks := by
  unfold sibsOf sortBookmarks at h
  rw [List.mem_insertionSort] at h
  exact (List.mem_filter.mp h).1

theorem moveBookmarkRelative_success_spec (s : ManagerState) (bid : String) (up : Bool)
    (bm a b : Bookmark)
    (hnd : (s.bookmarks.map (fun x => x.id)).Nodup)
    (hfind : s.bookmarks.find? (fun x => decide (x.id = bid)) = some bm)
    (ha : (sibsOf s bm)[siblingIdx s bm bid]? = some a)
    (hb : (sibsOf s bm)[(neighborIdx (siblingIdx s bm bid) up).toNat]? = some b)
    (hnn : 0 ≤ neighborIdx (siblingIdx s bm bid) up) :
    moveBookmarkRelative s bid up =
      (true, { s with bookmarks := s.bookmarks.map (fun x =>
          if x.id = a.id then { x with priority := some (effPriority b.priority) }
          else if x.id = b.id then { x with priority := some (effPriority a.priority) }
          else x) }) := by
  simp only [siblingIdx] at ha hb hnn
  obtain ⟨hidx, hae⟩ := List.getElem?_eq_some_iff.mp ha
  obtain ⟨htgt, hbe⟩ := List.getElem?_eq_some_iff.mp hb
  have hne_idx : (sibsOf s bm).findIdx (fun x => decide (x.id = bid)) ≠
      (neighborIdx ((sibsOf s bm).findIdx (fun x => decide (x.id = bid))) up).toNat := by
    cases up <;> simp only [neighborIdx, if_true, if_false, Bool.false_eq_true] at hnn ⊢ <;>
      omega
  have hsnd := sibsOf_map_id_nodup s bm hnd
  have hamem : a ∈ sibsOf s bm := by
    rw [← hae]
    exact List.getElem_mem hidx
  have hbmem2 : b ∈ sibsOf s bm := by
    rw [← hbe]
    exact List.getElem_mem htgt
  have hab : a.id ≠ b.id := by
    intro he
    have hpt : a = b := List.inj_on_of_nodup_map hsnd hamem hbmem2 he
    apply hne_idx
    rw [← hae, ← hbe] at hpt
    exact (List.Nodup.getElem_inj_iff (List.Nodup.of_map _ hsnd)).mp hpt
  simp only [moveBookmarkRelative, hfind]
  rw [if_neg (by omega)]
  rw [if_neg (by
    push_neg
    refine ⟨hnn, ?_⟩
    omega)]
  rw [ha, hb]
  simp only
  rw [swap_updates_eq_map a b (effPriority a.priority) (effPriority b.priority)
    s.bookmarks hnd hab]

/-- C6: a successful `moveBookmarkRelative` exchanges exactly the two
effective priority values of the moved bookmark (`a`) and its neighbor in the
requested direction (`b`), and changes nothing else: the group list is
untouched and every bookmark record other than the two priority fields is
pointwise unchanged (the map rewrites only the priority of `a` and `b`). -/
theorem C6_swap_frame (s : ManagerState) (bid : String) (up : Bool) (bm a b : Bookmark)
    (hnd : (s.bookmarks.map (fun x => x.id)).Nodup)
    (hfind : s.bookmarks.find? (fun x => decide (x.id = bid)) = some bm)
    (ha : (sibsOf s bm)[siblingIdx s bm bid]? = some a)
    (hb : (sibsOf s bm)[(neighborIdx (siblingIdx s bm bid) up).toNat]? = some b)
    (hnn : 0 ≤ neighborIdx (siblingIdx s bm bid) up) :
    (moveBookmarkRelative s bid up).1 = true ∧
    (moveBookmarkRelative s bid up).2.groups = s.groups ∧
    (moveBookmarkRelative s bid up).2.bookmarks = s.bookmarks.map (fun x =>
      if x.id = a.id then { x with priority := some (effPriority b.priority) }
      else if x.id = b.id then { x with priority := some (effPriority a.priority) }
      else x) := by
  rw [moveBookmarkRelative_success_spec s bid up bm a b hnd hfind ha hb hnn]
  exact ⟨rfl, rfl, rfl⟩

/-- Witness for C6: moving the lower-priority of two bookmarks toward the
front swaps the two priorities. -/
theorem C6_witness :
    (moveBookmarkRelative w7s "b2" true).1 = true ∧
    (moveBookmarkRelative w7s "b2" true).2.groups = w7s.groups ∧
    (moveBookmarkRelative w7s "b2" true).2.bookmarks = w7s.bookmarks.map (fun x =>
      if x.id = w7b.id then { x with priority := some (effPriority w7a.priority) }
      else if x.id = w7a.id then { x with priority := some (effPriority w7b.priority) }
      else x) :=
  C6_swap_frame w7s "b2" true w7b w7b w7a (by decide) (by decide) (by decide) (by decide)
    (by decide)

/-- C10: when the neighbor in the requested direction has the same effective
priority, `moveBookmarkRelative` still reports success (returns true), yet
swapping the two equal priorities is the identity on every observable field
(`bookKey`), so the sorted sibling order is exactly what it was — a
"successful move" with no observable reordering effect. -/
theorem C10_equal_priority_swap (s : ManagerState) (bid : String) (up : Bool)
    (bm a b : Bookmark)
    (hnd : (s.bookmarks.map (fun x => x.id)).Nodup)
    (hfind : s.bookmarks.find? (fun x => decide (x.id = bid)) = some bm)
    (ha : (sibsOf s bm)[siblingIdx s bm bid]? = some a)
    (hb : (sibsOf s bm)[(neighborIdx (siblingIdx s bm bid) up).toNat]? = some b)
    (hnn : 0 ≤ neighborIdx (siblingIdx s bm bid) up)
    (heq : effPriority a.priority = effPriority b.priority) :
    (moveBookmarkRelative s bid up).1 = true ∧
    (moveBookmarkRelative s bid up).2.bookmarks.map bookKey = s.bookmarks.map bookKey ∧
    (sortBookmarks ((moveBookmarkRelative s bid up).2.bookmarks.filter
        (fun x => decide (keyOf x = keyOf bm)))).map (fun x => x.id)
      = (sibsOf s bm).map (fun x => x.id) := by
  have ha2 := ha
  have hb2 := hb
  simp only [siblingIdx] at ha2 hb2
  obtain ⟨hidx, hae⟩ := List.getElem?_eq_some_iff.mp ha2
  obtain ⟨htgt, hbe⟩ := List.getElem?_eq_some_iff.mp hb2
  have hamem : a ∈ s.bookmarks := by
    apply mem_of_mem_sibsOf
    rw [← hae]
    exact List.getElem_mem hidx
  have hbm2 : b ∈ s.bookmarks := by
    apply mem_of_mem_sibsOf
    rw [← hbe]
    exact List.getElem_mem htgt
  have hinj := List.inj_on_of_nodup_map hnd
  have heq2 : b.priority.getD 0 = a.priority.getD 0 := by
    simpa [effPriority] using heq.symm
  rw [moveBookmarkRelative_success_spec s bid up bm a b hnd hfind ha hb hnn]
  dsimp only
  set F := fun x : Bookmark =>
      if x.id = a.id then { x with priority := some (effPriority b.priority) }
      else if x.id = b.id then { x with priority := some (effPriority a.priority) }
      else x with hF
  have hFkey : ∀ x ∈ s.bookmarks, bookKey (F x) = bookKey x := by
    intro x hx
    by_cases h1 : x.id = a.id
    · have hxa : x = a := hinj hx hamem h1
      simp [hF, bookKey, h1, effPriority, hxa, heq2]
    · by_cases h2 : x.id = b.id
      · have hxb : x = b := hinj hx hbm2 h2
        simp [hF, bookKey, h1, h2, effPriority, hxb, heq2]
      · simp [hF, bookKey, h1, h2]
  have hFeff : ∀ x ∈ s.bookmarks, effPriority ((F x).priority) = effPriority x.priority := by
    intro x hx
    by_cases h1 : x.id = a.id
    · have hxa : x = a := hinj hx hamem h1
      simp [hF, h1, effPriority, hxa, heq2]
    · by_cases h2 : x.id = b.id
      · have hxb : x = b := hinj hx hbm2 h2
        simp [hF, h1, h2, effPriority, hxb, heq2]
      · simp [hF, h1, h2]
  have hFcr : ∀ x : Bookmark, (F x).created = x.created := by
    intro x
    simp only [hF]
    split
    · rfl
    · split <;> rfl
  have hFid : ∀ x : Bookmark, (F x).id = x.id := by
    intro x
    simp only [hF]
    split
    · rfl
    · split <;> rfl
  have hFgr : ∀ x : Bookmark, (F x).groupId = x.groupId := by
    intro x
    simp only [hF]
    split
    · rfl
    · split <;> rfl
  refine ⟨rfl, ?_, ?_⟩
  · rw [List.map_map]
    exact List.map_congr_left (fun x hx => hFkey x hx)
  · have hpF : ((fun x => decide (keyOf x = keyOf bm)) ∘ F)
        = (fun x => decide (keyOf x = keyOf bm)) := by
      funext x
      simp only [Function.comp_apply, keyOf, hFgr x]
    rw [List.filter_map, hpF]
    unfold sortBookmarks
    rw [← List.map_insertionSort bookmarkRel bookmarkRel F
      (s.bookmarks.filter (fun x => decide (keyOf x = keyOf bm))) ?_]
    · rw [List.map_map]
      exact List.map_congr_left (fun x _ => hFid x)
    · intro x hx y hy
      have hx2 : x ∈ s.bookmarks := (List.mem_filter.mp hx).1
      have hy2 : y ∈ s.bookmarks := (List.mem_filter.mp hy).1
      unfold bookmarkRel
      rw [bookmarkLE_iff, bookmarkLE_iff, hFeff x hx2, hFeff y hy2, hFcr, hFcr]

/-- Witness for C10: two bookmarks with equal effective priority (one stored
as 0, one absent); moving the second one toward the front reports success but
observably changes nothing. -/
theorem C10_witness :
    (moveBookmarkRelative w10s "c2" true).1 = true ∧
    (moveBookmarkRelative w10s "c2" true).2.bookmarks.map bookKey
      = w10s.bookmarks.map bookKey ∧
    (sortBookmarks ((moveBookmarkRelative w10s "c2" true).2.bookmarks.filter
        (fun x => decide (keyOf x = keyOf w10b)))).map (fun x => x.id)
      = (sibsOf w10s w10b).map (fun x => x.id) :=
  C10_equal_priority_swap w10s "c2" true w10b w10b w10a (by decide) (by decide) (by decide)
    (by decide) (by decide) (by decide)

theorem renumber_length (total i : Nat) (l : List BookmarkGroup) :
    (renumber total i l).length = l.length := by
  induction l generalizing i with
  | nil => rfl
  | cons x xs ih => simp [renumber, ih]

theorem renumber_map_id (total i : Nat) (l : List BookmarkGroup) :
    (renumber total i l).map (fun g => g.id) = l.map (fun g => g.id) := by
  induction l generalizing i with
  | nil => rfl
  | cons x xs ih => simp [renumber, ih]

theorem renumber_get (total : Nat) (l : List BookmarkGroup) :
    ∀ (i : Nat) (k : Nat) (hk : k < (renumber total i l).length)
      (hk2 : k < l.length),
      (renumber total i l).get ⟨k, hk⟩ =
        { l.get ⟨k, hk2⟩ with priority := some ((total : Int) - ((i : Int) + (k : Int))) } := by
  induction l with
  | nil => intro i k hk hk2; simp at hk2
  | cons x xs ih =>
    intro i k hk hk2
    cases k with
    | zero => simp [renumber]
    | succ k2 =>
      have hk3 : k2 < (renumber total (i + 1) xs).length := by
        simp only [renumber, List.length_cons] at hk
        omega
      have hk4 : k2 < xs.length := by
        rw [renumber_length] at hk3
        exact hk3
      have step : (renumber total i (x :: xs)).get ⟨k2 + 1, hk⟩ =
          (renumber total (i + 1) xs).get ⟨k2, hk3⟩ := rfl
      rw [step, ih (i + 1) k2 hk3 hk4]
      have : ((total : Int) - ((i : Int) + 1 + (k2 : Int)))
          = ((total : Int) - ((i : Int) + ((k2 : Int) + 1))) := by ring
      simp only [List.get_cons_succ]
      congr 1
      push_cast
      ring_nf

theorem renumber_parent_mem (total : Nat) (l : List BookmarkGroup) :
    ∀ (i : Nat) (x : BookmarkGroup), x ∈ renumber total i l →
      ∃ g ∈ l, x.parentId = g.parentId := by
  induction l with
  | nil => intro i x hx; simp [renumber] at hx
  | cons y ys ih =>
    intro i x hx
    rw [renumber, List.mem_cons] at hx
    rcases hx with hx | hx
    · exact ⟨y, List.mem_cons_self y ys, by rw [hx]⟩
    · obtain ⟨g, hg, he⟩ := ih (i + 1) x hx
      exact ⟨g, List.mem_cons_of_mem y hg, he⟩

theorem renumber_sorted (total i : Nat) (l : List BookmarkGroup) :
    (renumber total i l).Pairwise groupRel := by
  rw [List.pairwise_iff_getElem]
  intro a b ha hb hab
  have ha2 : a < l.length := by rw [← renumber_length total i l]; exact ha
  have hb2 : b < l.length := by rw [← renumber_length total i l]; exact hb
  have e1 := renumber_get total l i a ha ha2
  have e2 := renumber_get total l i b hb hb2
  rw [List.get_eq_getElem] at e1 e2
  rw [e1, e2]
  unfold groupRel
  rw [groupLE_iff]
  left
  simp only [effPriority, Option.getD_some]
  omega

theorem insertPos_le (s : ManagerState) (gid : String) (p ib : Option String) :
    insertPos s gid p ib ≤ (oldSibs s gid p).length := by
  unfold insertPos
  cases ib with
  | none => exact Nat.zero_le _
  | some tid =>
    by_cases h : tid = ""
    · simp [h]
    · simp only [if_neg h]
      split <;> omega

theorem renumber_getElem? (total : Nat) (l : List BookmarkGroup) (i k : Nat)
    (hk2 : k < l.length) :
    (renumber total i l)[k]? =
      some { l.get ⟨k, hk2⟩ with
        priority := some ((total : Int) - ((i : Int) + (k : Int))) } := by
  have hk : k < (renumber total i l).length := by
    rw [renumber_length]
    exact hk2
  rw [List.getElem?_eq_getElem hk]
  congr 1
  rw [← renumber_get total l i k hk hk2]
  exact (List.get_eq_getElem (renumber total i l) ⟨k, hk⟩).symm

theorem oldSibs_parent {s : ManagerState} {gid : String} {p : Option String}
    {g : BookmarkGroup} (h : g ∈ oldSibs s gid p) : g.parentId = p := by
  unfold oldSibs at h
  exact of_decide_eq_true (List.mem_filter.mp h).2

theorem moveGroupToParent_success_groups (s : ManagerState) (gid : String)
    (np ib : Option String) (mg : BookmarkGroup)
    (hfind : s.groups.find? (fun g => decide (g.id = gid)) = some mg)
    (hnc : (targetSibsOf s gid np).any (fun g => decide (g.name = mg.name)) = false) :
    (moveGroupToParent s gid np ib).groups =
      (restOf s gid).filter (fun g => decide (g.parentId ≠ np))
        ++ renumber ((oldSibs s gid np).take (insertPos s gid np ib) ++
            { mg with parentId := np } :: (oldSibs s gid np).drop (insertPos s gid np ib)).length
          0 ((oldSibs s gid np).take (insertPos s gid np ib) ++
            { mg with parentId := np } :: (oldSibs s gid np).drop (insertPos s gid np ib)) := by
  simp only [moveGroupToParent, hfind, hnc, Bool.false_eq_true, if_false]

theorem bucket_after_move (s : ManagerState) (gid : String)
    (np ib : Option String) (mg : BookmarkGroup)
    (hfind : s.groups.find? (fun g => decide (g.id = gid)) = some mg)
    (hnc : (targetSibsOf s gid np).any (fun g => decide (g.name = mg.name)) = false) :
    bucketOf (moveGroupToParent s gid np ib) np =
      renumber ((oldSibs s gid np).take (insertPos s gid np ib) ++
          { mg with parentId := np } :: (oldSibs s gid np).drop (insertPos s gid np ib)).length
        0 ((oldSibs s gid np).take (insertPos s gid np ib) ++
          { mg with parentId := np } :: (oldSibs s gid np).drop (insertPos s gid np ib)) := by
  unfold bucketOf
  rw [moveGroupToParent_success_groups s gid np ib mg hfind hnc]
  rw [List.filter_append]
  have h1 : ((restOf s gid).filter (fun g => decide (g.parentId ≠ np))).filter
      (fun g => decide (g.parentId = np)) = [] := by
    rw [List.filter_filter, List.filter_eq_nil_iff]
    intro a _
    by_cases h : a.parentId = np <;> simp [h]
  have h2 : (renumber ((oldSibs s gid np).take (insertPos s gid np ib) ++
        { mg with parentId := np } :: (oldSibs s gid np).drop (insertPos s gid np ib)).length
        0 ((oldSibs s gid np).take (insertPos s gid np ib) ++
        { mg with parentId := np } :: (oldSibs s gid np).drop (insertPos s gid np ib))).filter
      (fun g => decide (g.parentId = np)) =
      renumber ((oldSibs s gid np).take (insertPos s gid np ib) ++
        { mg with parentId := np } :: (oldSibs s gid np).drop (insertPos s gid np ib)).length
        0 ((oldSibs s gid np).take (insertPos s gid np ib) ++
        { mg with parentId := np } :: (oldSibs s gid np).drop (insertPos s gid np ib)) := by
    rw [List.filter_eq_self]
    intro x hx
    obtain ⟨g, hg, he⟩ := renumber_parent_mem _ _ _ _ hx
    rw [List.mem_append] at hg
    rcases hg with hg | hg
    · have := oldSibs_parent (List.mem_of_mem_take hg)
      simp [he, this]
    · rw [List.mem_cons] at hg
      rcases hg with hg | hg
      · simp [he, hg]
      · have := oldSibs_parent (List.mem_of_mem_drop hg)
        simp [he, this]
  rw [h1, h2, List.nil_append]

/-- C4 amended: after a successful `moveGroupToParent` (moving group found, no
target name collision), the sibling bucket under the new parent has: one more
entry than the prior target siblings; an id sequence equal to the prior
siblings in their prior STORED-ARRAY relative order (the source splices into
the unsorted filter of `this.groups`, not into the Ordering-Policy order) with
the moved group spliced in at `insertPos`; dense, pairwise-distinct effective
priorities `count` down to `1` front-to-back; a priority-sorted (displayed)
order equal to its stored order; the moved group exactly at `insertPos` (which
is the index of `insertBeforeId` when that names an existing target sibling,
and 0 — the front — when `insertBeforeId` is absent).  The original claim's
"remaining target siblings keep their prior relative order", read as the
displayed Ordering-Policy order, is refuted by `C4_counterexample`: the
renumbering by stored position can reverse the siblings' displayed order. -/
theorem C4_moveGroupToParent_spec (s : ManagerState) (gid : String)
    (np ib : Option String) (mg : BookmarkGroup)
    (hfind : s.groups.find? (fun g => decide (g.id = gid)) = some mg)
    (hnc : (targetSibsOf s gid np).any (fun g => decide (g.name = mg.name)) = false) :
    (bucketOf (moveGroupToParent s gid np ib) np).length = (oldSibs s gid np).length + 1 ∧
    (bucketOf (moveGroupToParent s gid np ib) np).map (fun g => g.id)
      = ((oldSibs s gid np).take (insertPos s gid np ib)).map (fun g => g.id)
        ++ gid :: ((oldSibs s gid np).drop (insertPos s gid np ib)).map (fun g => g.id) ∧
    (∀ k : Nat, k < (bucketOf (moveGroupToParent s gid np ib) np).length →
      ((bucketOf (moveGroupToParent s gid np ib) np)[k]?).map
          (fun g => effPriority g.priority)
        = some ((((oldSibs s gid np).length : Int) + 1) - (k : Int))) ∧
    sortGroups (bucketOf (moveGroupToParent s gid np ib) np)
      = bucketOf (moveGroupToParent s gid np ib) np ∧
    ((bucketOf (moveGroupToParent s gid np ib) np).map (fun g => g.id))[
      insertPos s gid np ib]? = some gid ∧
    (∀ tid, ib = some tid → tid ≠ "" →
      (oldSibs s gid np).findIdx (fun g => decide (g.id = tid)) < (oldSibs s gid np).length →
      ((bucketOf (moveGroupToParent s gid np ib) np).map (fun g => g.id))[
        insertPos s gid np ib + 1]? = some tid) ∧
    (ib = none → insertPos s gid np ib = 0) := by
  have hmg2 := List.find?_some hfind
  have hmgid : mg.id = gid := of_decide_eq_true hmg2
  have hble := insertPos_le s gid np ib
  have hbucket := bucket_after_move s gid np ib mg hfind hnc
  have htlen : (((oldSibs s gid np).take (insertPos s gid np ib)).length)
      = insertPos s gid np ib := List.length_take_of_le hble
  have hsplen : ((oldSibs s gid np).take (insertPos s gid np ib) ++
      { mg with parentId := np } :: (oldSibs s gid np).drop (insertPos s gid np ib)).length
      = (oldSibs s gid np).length + 1 := by
    rw [List.length_append, List.length_cons, htlen, List.length_drop]
    omega
  have hmap : (bucketOf (moveGroupToParent s gid np ib) np).map (fun g => g.id)
      = ((oldSibs s gid np).take (insertPos s gid np ib)).map (fun g => g.id)
        ++ gid :: ((oldSibs s gid np).drop (insertPos s gid np ib)).map (fun g => g.id) := by
    rw [hbucket, renumber_map_id, List.map_append, List.map_cons]
    simp only [hmgid]
  have htmlen : (((oldSibs s gid np).take (insertPos s gid np ib)).map
      (fun g => g.id)).length = insertPos s gid np ib := by
    rw [List.length_map, htlen]
  refine ⟨?_, hmap, ?_, ?_, ?_, ?_, ?_⟩
  · rw [hbucket, renumber_length, hsplen]
  · intro k hk
    rw [hbucket] at hk ⊢
    rw [renumber_length] at hk
    rw [renumber_getElem? _ _ 0 k hk]
    simp only [Option.map_some]
    simp [effPriority]
    omega
  · rw [hbucket]
    unfold sortGroups
    exact List.Sorted.insertionSort_eq (renumber_sorted _ _ _)
  · rw [hmap]
    rw [List.getElem?_append_right (le_of_eq htmlen)]
    rw [htmlen]
    simp
  · intro tid hib hne hlt
    have hj : insertPos s gid np ib =
        (oldSibs s gid np).findIdx (fun g => decide (g.id = tid)) := by
      rw [hib]
      simp only [insertPos]
      rw [if_neg hne]
      rw [if_neg (by omega)]
    rw [hmap]
    rw [List.getElem?_append_right (by rw [htmlen]; omega)]
    rw [htmlen]
    have hone : insertPos s gid np ib + 1 - insertPos s gid np ib = 0 + 1 := by omega
    rw [hone]
    simp only [List.getElem?_cons_succ]
    rw [List.getElem?_map]
    rw [List.getElem?_drop]
    have hidx : insertPos s gid np ib + 0
        = (oldSibs s gid np).findIdx (fun g => decide (g.id = tid)) := by omega
    rw [hidx]
    rw [List.getElem?_eq_getElem hlt]
    simp only [Option.map_some', Option.some.injEq]
    exact of_decide_eq_true
      (@List.findIdx_getElem _ (fun g => decide (g.id = tid)) (oldSibs s gid np) hlt)
  · intro h
    rw [h]
    rfl

/-- C4 witness: moving root-level group "x" under parent "p" before sibling
"b" in the concrete state w4s satisfies the hypotheses of the C4 theorem, and
in the resulting bucket "x" sits at the insertion index, immediately before
"b". -/
theorem C4_witness :
    w4s.groups.find? (fun g => decide (g.id = "x")) = some w4x ∧
    (targetSibsOf w4s "x" (some "p")).any (fun g => decide (g.name = w4x.name))
      = false ∧
    ((bucketOf (moveGroupToParent w4s "x" (some "p") (some "b")) (some "p")).map
      (fun g => g.id))[insertPos w4s "x" (some "p") (some "b")]? = some "x" ∧
    ((bucketOf (moveGroupToParent w4s "x" (some "p") (some "b")) (some "p")).map
      (fun g => g.id))[insertPos w4s "x" (some "p") (some "b") + 1]? = some "b" :=
  ⟨by decide, by decide,
    (C4_moveGroupToParent_spec w4s "x" (some "p") (some "b") w4x
      (by decide) (by decide)).2.2.2.2.1,
    (C4_moveGroupToParent_spec w4s "x" (some "p") (some "b") w4x
      (by decide) (by decide)).2.2.2.2.2.1 "b" rfl (by decide) (by decide)⟩

theorem removeGroupAux_nil (fuel : Nat) (s : ManagerState) :
    removeGroupAux fuel s [] = s := by
  cases fuel <;> simp [removeGroupAux]

theorem removeGroupAux_zero (s : ManagerState) (gid : String) (rest : List String) :
    removeGroupAux 0 s (gid :: rest) = s := by
  simp [removeGroupAux]

theorem removeGroupAux_succ_none (f : Nat) (s : ManagerState) (gid : String)
    (rest : List String)
    (hfind : s.groups.find? (fun g => decide (g.id = gid)) = none) :
    removeGroupAux (f + 1) s (gid :: rest) = removeGroupAux (f + 1) s rest := by
  rw [removeGroupAux, hfind]

theorem removeGroupAux_succ_some (f : Nat) (s : ManagerState) (gid : String)
    (rest : List String) (group : BookmarkGroup)
    (hfind : s.groups.find? (fun g => decide (g.id = gid)) = some group) :
    removeGroupAux (f + 1) s (gid :: rest) =
      removeGroupAux (f + 1)
        ⟨(removeGroupAux f s
            ((s.groups.filter (fun h => decide (h.parentId = some gid))).map
              (fun h => h.id))).bookmarks.map
          (fun b => if b.groupId = some gid then { b with groupId := group.parentId }
            else b),
         (removeGroupAux f s
            ((s.groups.filter (fun h => decide (h.parentId = some gid))).map
              (fun h => h.id))).groups.filter (fun h => decide (h.id ≠ gid))⟩
        rest := by
  rw [removeGroupAux, hfind]

theorem DescOf_mono (s t : ManagerState) (root x : String)
    (hsub : ∀ g ∈ s.groups, g ∈ t.groups) (h : DescOf s root x) :
    DescOf t root x := by
  induction h with
  | self => exact DescOf.self
  | child g y hg hp _ ih => exact DescOf.child g y (hsub g hg) hp ih

theorem DescOf_trans (s : ManagerState) (root mid x : String)
    (h1 : DescOf s mid x) (h2 : DescOf s root mid) : DescOf s root x := by
  induction h1 with
  | self => exact h2
  | child g y hg hp _ ih => exact DescOf.child g y hg hp ih

theorem reassignTo_nil (P : Option String) (b : Bookmark) :
    reassignTo P [] b = b := by
  unfold reassignTo
  cases b.groupId <;> simp

theorem reassignTo_step (P : Option String) (gid : String) (R : List String)
    (b : Bookmark) :
    (if (reassignTo (some gid) R b).groupId = some gid
      then { reassignTo (some gid) R b with groupId := P }
      else reassignTo (some gid) R b)
      = reassignTo P (R ++ [gid]) b := by
  unfold reassignTo
  cases hb : b.groupId with
  | none => simp [hb]
  | some g =>
    by_cases hR : g ∈ R
    · simp [hb, hR]
    · by_cases hg : g = gid
      · subst hg
        simp [hb, hR]
      · simp [hb, hR, hg]

theorem reassignTo_append (P : Option String) (R1 R2 : List String)
    (hq : ∀ p, P = some p → p ∉ R2) (b : Bookmark) :
    reassignTo P R2 (reassignTo P R1 b) = reassignTo P (R1 ++ R2) b := by
  unfold reassignTo
  cases hb : b.groupId with
  | none => simp [hb]
  | some g =>
    by_cases h1 : g ∈ R1
    · simp only [hb, if_pos h1, List.mem_append]
      cases hP : P with
      | none => simp [h1]
      | some p => simp [hq p hP, h1]
    · by_cases h2 : g ∈ R2
      · simp [hb, h1, h2]
      · simp [hb, h1, h2]

theorem reassign_nil_state (s : ManagerState) (P : Option String) :
    (⟨s.bookmarks.map (reassignTo P []),
      s.groups.filter (fun g => decide (g.id ∉ ([] : List String)))⟩ : ManagerState)
      = s := by
  cases s with
  | mk bks gps =>
    simp only [ManagerState.mk.injEq]
    constructor
    · calc bks.map (reassignTo P []) = bks.map id :=
            List.map_congr_left (fun b _ => reassignTo_nil P b)
        _ = bks := List.map_id bks
    · exact List.filter_eq_self.mpr (fun g _ => by simp)

theorem filter_notmem_snoc (l : List BookmarkGroup) (R1 : List String)
    (gid : String) :
    (l.filter (fun g => decide (g.id ∉ R1))).filter (fun g => decide (g.id ≠ gid))
      = l.filter (fun g => decide (g.id ∉ R1 ++ [gid])) := by
  rw [List.filter_filter]
  apply List.filter_congr
  intro g _
  by_cases h1 : g.id ∈ R1 <;> by_cases h2 : g.id = gid <;>
    simp [h1, h2, List.mem_append]

theorem filter_notmem_append (l : List BookmarkGroup) (R1 R2 : List String) :
    (l.filter (fun g => decide (g.id ∉ R1))).filter (fun g => decide (g.id ∉ R2))
      = l.filter (fun g => decide (g.id ∉ R1 ++ R2)) := by
  rw [List.filter_filter]
  apply List.filter_congr
  intro g _
  by_cases h1 : g.id ∈ R1 <;> by_cases h2 : g.id ∈ R2 <;>
    simp [h1, h2, List.mem_append]

theorem removeGroupAux_spec_triv (rk : String → Nat) (fuel : Nat)
    (s : ManagerState) (P : Option String) (gids : List String)
    (hstate : removeGroupAux fuel s gids = s)
    (h2 : ∀ x ∈ gids, (∃ gx ∈ s.groups, gx.id = x) → False) :
    ∃ R : List String,
      removeGroupAux fuel s gids
        = ⟨s.bookmarks.map (reassignTo P R),
           s.groups.filter (fun g => decide (g.id ∉ R))⟩ ∧
      (∀ x ∈ gids, (∃ gx ∈ s.groups, gx.id = x) → x ∈ R) ∧
      (∀ g ∈ s.groups, ∀ r ∈ R, g.parentId = some r → g.id ∈ R) ∧
      (∀ r ∈ R, ∃ x ∈ gids, DescOf s x r) ∧
      (∀ p, P = some p → ∀ r ∈ R, rk r < rk p) :=
  ⟨[],
    by rw [hstate]; exact (reassign_nil_state s P).symm,
    fun x hx hex => (h2 x hx hex).elim,
    fun g _ r hr => absurd hr (List.not_mem_nil r),
    fun r hr => absurd hr (List.not_mem_nil r),
    fun p _ r hr => absurd hr (List.not_mem_nil r)⟩

theorem removeGroupAux_spec (rk : String → Nat) (fuel : Nat) :
    ∀ (gids : List String) (s : ManagerState) (P : Option String),
    (s.groups.map (fun g => g.id)).Nodup →
    (∀ g ∈ s.groups, ∀ h ∈ s.groups, h.parentId = some g.id → rk h.id < rk g.id) →
    (∀ x ∈ gids, ∀ gx ∈ s.groups, gx.id = x → gx.parentId = P) →
    (∀ x ∈ gids, ∀ gx ∈ s.groups, gx.id = x → rk x < fuel) →
    (∀ p, P = some p → ∀ x ∈ gids, ∀ gx ∈ s.groups, gx.id = x → rk x < rk p) →
    ∃ R : List String,
      removeGroupAux fuel s gids
        = ⟨s.bookmarks.map (reassignTo P R),
           s.groups.filter (fun g => decide (g.id ∉ R))⟩ ∧
      (∀ x ∈ gids, (∃ gx ∈ s.groups, gx.id = x) → x ∈ R) ∧
      (∀ g ∈ s.groups, ∀ r ∈ R, g.parentId = some r → g.id ∈ R) ∧
      (∀ r ∈ R, ∃ x ∈ gids, DescOf s x r) ∧
      (∀ p, P = some p → ∀ r ∈ R, rk r < rk p) := by
  induction fuel with
  | zero =>
    intro gids s P hnd hpar hP hfuel hPr
    cases gids with
    | nil =>
      exact removeGroupAux_spec_triv rk 0 s P [] (removeGroupAux_nil 0 s)
        (fun x hx _ => absurd hx (List.not_mem_nil x))
    | cons gid rest =>
      refine removeGroupAux_spec_triv rk 0 s P (gid :: rest)
        (removeGroupAux_zero s gid rest) ?_
      rintro x hx ⟨gx, hgx, hgid⟩
      exact absurd (hfuel x hx gx hgx hgid) (Nat.not_lt_zero _)
  | succ f IHf =>
    intro gids
    induction gids with
    | nil =>
      intro s P hnd hpar hP hfuel hPr
      exact removeGroupAux_spec_triv rk (f + 1) s P [] (removeGroupAux_nil (f + 1) s)
        (fun x hx _ => absurd hx (List.not_mem_nil x))
    | cons gid rest IHr =>
      intro s P hnd hpar hP hfuel hPr
      cases hfind : s.groups.find? (fun g => decide (g.id = gid)) with
      | none =>
        obtain ⟨R2, h1, h2, h3, h4, h5⟩ := IHr s P hnd hpar
          (fun x hx => hP x (List.mem_cons_of_mem gid hx))
          (fun x hx => hfuel x (List.mem_cons_of_mem gid hx))
          (fun p hp x hx => hPr p hp x (List.mem_cons_of_mem gid hx))
        refine ⟨R2, ?_, ?_, h3, ?_, h5⟩
        · rw [removeGroupAux_succ_none f s gid rest hfind]
          exact h1
        · intro x hx hex
          rcases List.mem_cons.mp hx with hxe | hxr
          · exfalso
            obtain ⟨gx, hgx, hgid⟩ := hex
            have hnone := List.find?_eq_none.mp hfind gx hgx
            exact hnone (by simp [hgid, hxe])
          · exact h2 x hxr hex
        · intro r hr
          obtain ⟨x, hx, hd⟩ := h4 r hr
          exact ⟨x, List.mem_cons_of_mem gid hx, hd⟩
      | some group =>
        have hgmem : group ∈ s.groups := List.mem_of_find?_eq_some hfind
        have hgp2 := List.find?_some hfind
        have hgid : group.id = gid := of_decide_eq_true hgp2
        have hgP : group.parentId = P :=
          hP gid (List.mem_cons_self gid rest) group hgmem hgid
        have hgfuel : rk gid < f + 1 :=
          hfuel gid (List.mem_cons_self gid rest) group hgmem hgid
        have hsubsmem : ∀ x ∈ (s.groups.filter
              (fun h => decide (h.parentId = some gid))).map (fun h => h.id),
            ∀ gx ∈ s.groups, gx.id = x →
              gx.parentId = some gid ∧ rk x < rk gid := by
          intro x hxS gx hgx hgxid
          obtain ⟨h, hhf, hhid⟩ := List.mem_map.mp hxS
          have hhmem : h ∈ s.groups := List.mem_of_mem_filter hhf
          have hhp2 := List.of_mem_filter hhf
          have hhp : h.parentId = some gid := of_decide_eq_true hhp2
          have heq : gx = h :=
            List.inj_on_of_nodup_map hnd hgx hhmem (by rw [hgxid, hhid])
          constructor
          · rw [heq]
            exact hhp
          · have hlt := hpar group hgmem h hhmem (by rw [hhp, hgid])
            rw [← hhid, ← hgid]
            exact hlt
        obtain ⟨R1, c1, c2, c3, c4, c5⟩ := IHf
          ((s.groups.filter (fun h => decide (h.parentId = some gid))).map
            (fun h => h.id)) s (some gid) hnd hpar
          (fun x hx gx hgx hgxid => (hsubsmem x hx gx hgx hgxid).1)
          (fun x hx gx hgx hgxid => by
            have h2 := (hsubsmem x hx gx hgx hgxid).2
            omega)
          (fun p hp x hx gx hgx hgxid => by
            injection hp with hp2
            rw [← hp2]
            exact (hsubsmem x hx gx hgx hgxid).2)
        have hs2 : (⟨(removeGroupAux f s
              ((s.groups.filter (fun h => decide (h.parentId = some gid))).map
                (fun h => h.id))).bookmarks.map
              (fun b => if b.groupId = some gid
                then { b with groupId := group.parentId } else b),
            (removeGroupAux f s
              ((s.groups.filter (fun h => decide (h.parentId = some gid))).map
                (fun h => h.id))).groups.filter
              (fun h => decide (h.id ≠ gid))⟩ : ManagerState)
            = ⟨s.bookmarks.map (reassignTo P (R1 ++ [gid])),
               s.groups.filter (fun g => decide (g.id ∉ R1 ++ [gid]))⟩ := by
          rw [c1]
          dsimp only
          simp only [ManagerState.mk.injEq]
          constructor
          · rw [List.map_map]
            apply List.map_congr_left
            intro b _
            simp only [Function.comp_apply]
            rw [hgP]
            exact reassignTo_step P gid R1 b
          · exact filter_notmem_snoc s.groups R1 gid
        have hstate2 : removeGroupAux (f + 1) s (gid :: rest)
            = removeGroupAux (f + 1)
                ⟨s.bookmarks.map (reassignTo P (R1 ++ [gid])),
                 s.groups.filter (fun g => decide (g.id ∉ R1 ++ [gid]))⟩ rest := by
          rw [removeGroupAux_succ_some f s gid rest group hfind, hs2]
        obtain ⟨R2, d1, d2, d3, d4, d5⟩ := IHr
          ⟨s.bookmarks.map (reassignTo P (R1 ++ [gid])),
           s.groups.filter (fun g => decide (g.id ∉ R1 ++ [gid]))⟩ P
          (by
            dsimp only
            exact ((List.filter_sublist s.groups).map (fun g => g.id)).nodup hnd)
          (fun g hg h hh => hpar g (List.mem_of_mem_filter hg) h
            (List.mem_of_mem_filter hh))
          (fun x hx gx hgx => hP x (List.mem_cons_of_mem gid hx) gx
            (List.mem_of_mem_filter hgx))
          (fun x hx gx hgx => hfuel x (List.mem_cons_of_mem gid hx) gx
            (List.mem_of_mem_filter hgx))
          (fun p hp x hx gx hgx => hPr p hp x (List.mem_cons_of_mem gid hx) gx
            (List.mem_of_mem_filter hgx))
        refine ⟨(R1 ++ [gid]) ++ R2, ?_, ?_, ?_, ?_, ?_⟩
        · rw [hstate2, d1]
          dsimp only
          simp only [ManagerState.mk.injEq]
          constructor
          · rw [List.map_map]
            apply List.map_congr_left
            intro b _
            simp only [Function.comp_apply]
            apply reassignTo_append
            intro p hp hpR2
            exact absurd (d5 p hp p hpR2) (lt_irrefl _)
          · exact filter_notmem_append s.groups (R1 ++ [gid]) R2
        · intro x hx hex
          rcases List.mem_cons.mp hx with hxe | hxr
          · subst hxe
            exact List.mem_append.mpr (Or.inl (by simp))
          · by_cases hR1 : x ∈ R1 ++ [gid]
            · exact List.mem_append.mpr (Or.inl hR1)
            · obtain ⟨gx, hgx, hgid2⟩ := hex
              have hgx2 : gx ∈ (s.groups.filter
                  (fun g => decide (g.id ∉ R1 ++ [gid]))) :=
                List.mem_filter.mpr ⟨hgx, by simp [hgid2, hR1]⟩
              have hxR2 := d2 x hxr ⟨gx, hgx2, hgid2⟩
              exact List.mem_append.mpr (Or.inr hxR2)
        · intro g hg r hr hparg
          rcases List.mem_append.mp hr with hr1 | hr2
          · rcases List.mem_append.mp hr1 with hrR1 | hrgid
            · exact List.mem_append.mpr
                (Or.inl (List.mem_append.mpr (Or.inl (c3 g hg r hrR1 hparg))))
            · have hrg : r = gid := by simpa using hrgid
              have hgf : g ∈ s.groups.filter
                  (fun h => decide (h.parentId = some gid)) :=
                List.mem_filter.mpr ⟨hg, by simp [hparg, hrg]⟩
              have hgS : g.id ∈ (s.groups.filter
                  (fun h => decide (h.parentId = some gid))).map (fun h => h.id) :=
                List.mem_map.mpr ⟨g, hgf, rfl⟩
              have hgR1 := c2 g.id hgS ⟨g, hg, rfl⟩
              exact List.mem_append.mpr
                (Or.inl (List.mem_append.mpr (Or.inl hgR1)))
          · by_cases hgR : g.id ∈ R1 ++ [gid]
            · exact List.mem_append.mpr (Or.inl hgR)
            · have hg2 : g ∈ s.groups.filter
                  (fun g => decide (g.id ∉ R1 ++ [gid])) :=
                List.mem_filter.mpr ⟨hg, by simp [hgR]⟩
              exact List.mem_append.mpr (Or.inr (d3 g hg2 r hr2 hparg))
        · intro r hr
          rcases List.mem_append.mp hr with hr1 | hr2
          · rcases List.mem_append.mp hr1 with hrR1 | hrgid
            · obtain ⟨x, hxS, hd⟩ := c4 r hrR1
              obtain ⟨h, hhf, hhid⟩ := List.mem_map.mp hxS
              have hhmem : h ∈ s.groups := List.mem_of_mem_filter hhf
              have hhp2 := List.of_mem_filter hhf
              have hhp : h.parentId = some gid := of_decide_eq_true hhp2
              have hdx : DescOf s gid x := by
                rw [← hhid]
                exact DescOf.child h gid hhmem hhp DescOf.self
              exact ⟨gid, List.mem_cons_self gid rest,
                DescOf_trans s gid x r hd hdx⟩
            · have hrg : r = gid := by simpa using hrgid
              refine ⟨gid, List.mem_cons_self gid rest, ?_⟩
              rw [hrg]
              exact DescOf.self
          · obtain ⟨x, hxr, hd⟩ := d4 r hr2
            refine ⟨x, List.mem_cons_of_mem gid hxr, ?_⟩
            refine DescOf_mono _ s x r ?_ hd
            intro g hg
            exact List.mem_of_mem_filter hg
        · intro p hp r hr
          rcases List.mem_append.mp hr with hr1 | hr2
          · rcases List.mem_append.mp hr1 with hrR1 | hrgid
            · have h1 := c5 gid rfl r hrR1
              have h2 := hPr p hp gid (List.mem_cons_self gid rest) group hgmem hgid
              omega
            · have hrg : r = gid := by simpa using hrgid
              rw [hrg]
              exact hPr p hp gid (List.mem_cons_self gid rest) group hgmem hgid
          · exact d5 p hp r hr2

theorem parentsRankedB_sound (rk : String → Nat) (s : ManagerState)
    (hb : parentsRankedB rk s = true) :
    ∀ g ∈ s.groups, ∀ h ∈ s.groups, h.parentId = some g.id → rk h.id < rk g.id := by
  simp only [parentsRankedB, List.all_eq_true] at hb
  intro g hg h hh hp
  have h1 := hb g hg h hh
  rw [if_pos hp] at h1
  exact of_decide_eq_true h1

theorem rankBoundB_sound (rk : String → Nat) (s : ManagerState)
    (hb : rankBoundB rk s = true) :
    ∀ g ∈ s.groups, rk g.id < s.groups.length := by
  simp only [rankBoundB, List.all_eq_true] at hb
  intro g hg
  exact of_decide_eq_true (hb g hg)

theorem bookmarkRefsOkB_sound (s : ManagerState)
    (hb : bookmarkRefsOkB s = true) :
    ∀ b ∈ s.bookmarks, ∀ q, b.groupId = some q → ∃ g ∈ s.groups, g.id = q := by
  simp only [bookmarkRefsOkB, List.all_eq_true] at hb
  intro b hbm q hq
  have h1 := hb b hbm
  rw [hq] at h1
  simp only [List.any_eq_true] at h1
  obtain ⟨g, hgm, hdec⟩ := h1
  have hgid : g.id = q := of_decide_eq_true hdec
  exact ⟨g, hgm, hgid⟩

theorem parentRefsOkB_sound (s : ManagerState)
    (hb : parentRefsOkB s = true) :
    ∀ g ∈ s.groups, ∀ q, g.parentId = some q → ∃ h ∈ s.groups, h.id = q := by
  simp only [parentRefsOkB, List.all_eq_true] at hb
  intro g hgm q hq
  have h1 := hb g hgm
  rw [hq] at h1
  simp only [List.any_eq_true] at h1
  obtain ⟨h, hhm, hdec⟩ := h1
  have hhid : h.id = q := of_decide_eq_true hdec
  exact ⟨h, hhm, hhid⟩

/-- C5: for a group id present in the collection (in a well-formed state:
unique ids, forest-shaped parent links witnessed by a rank, and no dangling
bookmark/parent references), `removeGroup` removes the group and every
transitive descendant group, keeps every bookmark, reassigns exactly the
bookmarks owned by removed groups to the removed group's parent (or to
ungrouped when it was root-level), and afterwards no bookmark's groupId
references an absent group id. -/
theorem C5_removeGroup_cascade (s : ManagerState) (gid : String)
    (rk : String → Nat) (mg : BookmarkGroup)
    (hnd : (s.groups.map (fun g => g.id)).Nodup)
    (hpr : parentsRankedB rk s = true)
    (hrb : rankBoundB rk s = true)
    (hbr : bookmarkRefsOkB s = true)
    (hgr : parentRefsOkB s = true)
    (hmem : mg ∈ s.groups) (hid : mg.id = gid) :
    (∀ x, DescOf s gid x → ∀ g ∈ (removeGroup s gid).groups, g.id ≠ x) ∧
    (removeGroup s gid).bookmarks.length = s.bookmarks.length ∧
    (∀ b ∈ (removeGroup s gid).bookmarks, ∀ q, b.groupId = some q →
      ∃ g ∈ (removeGroup s gid).groups, g.id = q) ∧
    ∃ R : List String,
      (∀ r ∈ R, DescOf s gid r) ∧
      (removeGroup s gid).groups = s.groups.filter (fun g => decide (g.id ∉ R)) ∧
      (removeGroup s gid).bookmarks = s.bookmarks.map (reassignTo mg.parentId R) := by
  have hpar := parentsRankedB_sound rk s hpr
  have hrkb := rankBoundB_sound rk s hrb
  have hbk := bookmarkRefsOkB_sound s hbr
  have hpref := parentRefsOkB_sound s hgr
  have huniq : ∀ gx ∈ s.groups, gx.id = gid → gx = mg :=
    fun gx hgx hgxid => List.inj_on_of_nodup_map hnd hgx hmem (by rw [hgxid, hid])
  obtain ⟨R, e1, e2, e3, e4, e5⟩ :=
    removeGroupAux_spec rk s.groups.length [gid] s mg.parentId hnd hpar
      (fun x hx gx hgx hgxid => by
        have hxg : x = gid := by simpa using hx
        rw [huniq gx hgx (by rw [hgxid, hxg])])
      (fun x hx gx hgx hgxid => by
        rw [← hgxid]
        exact hrkb gx hgx)
      (fun p hp x hx gx hgx hgxid => by
        have hxg : x = gid := by simpa using hx
        have hgxm : gx = mg := huniq gx hgx (by rw [hgxid, hxg])
        obtain ⟨gp, hgp, hgpid⟩ := hpref mg hmem p hp
        have hlt := hpar gp hgp mg hmem (by rw [hp, hgpid])
        rw [← hgxid, hgxm, ← hgpid]
        exact hlt)
  have hgidR : gid ∈ R := e2 gid (by simp) ⟨mg, hmem, hid⟩
  have hdescR : ∀ x, DescOf s gid x → x ∈ R := by
    intro x hd
    induction hd with
    | self => exact hgidR
    | child g y hg hp _ ih => exact e3 g hg y ih hp
  have e1' : removeGroup s gid
      = ⟨s.bookmarks.map (reassignTo mg.parentId R),
         s.groups.filter (fun g => decide (g.id ∉ R))⟩ := e1
  refine ⟨?_, ?_, ?_, R, ?_, ?_, ?_⟩
  · intro x hd g hg heq
    rw [e1'] at hg
    have hnmem := List.of_mem_filter hg
    have hnotR : g.id ∉ R := of_decide_eq_true hnmem
    exact hnotR (by rw [heq]; exact hdescR x hd)
  · rw [e1']
    exact List.length_map s.bookmarks (reassignTo mg.parentId R)
  · intro b hb q hq
    rw [e1'] at hb ⊢
    dsimp only at hb ⊢
    obtain ⟨b0, hb0, hbeq⟩ := List.mem_map.mp hb
    subst hbeq
    cases hb0g : b0.groupId with
    | none => simp [reassignTo, hb0g] at hq
    | some g0 =>
      by_cases hg0R : g0 ∈ R
      · have hPq : mg.parentId = some q := by
          simpa [reassignTo, hb0g, hg0R] using hq
        obtain ⟨gp, hgp, hgpid⟩ := hpref mg hmem q hPq
        have hqnot : q ∉ R := by
          intro hqR
          exact absurd (e5 q hPq q hqR) (lt_irrefl _)
        refine ⟨gp, ?_, hgpid⟩
        exact List.mem_filter.mpr ⟨hgp, by simp [hgpid, hqnot]⟩
      · have hq0 : g0 = q := by
          simpa [reassignTo, hb0g, hg0R] using hq
        obtain ⟨gq, hgq, hgqid⟩ := hbk b0 hb0 g0 hb0g
        refine ⟨gq, ?_, by rw [hgqid, hq0]⟩
        exact List.mem_filter.mpr ⟨hgq, by simp [hgqid, hg0R]⟩
  · intro r hr
    obtain ⟨x, hx, hd⟩ := e4 r hr
    have hxg : x = gid := by simpa using hx
    rw [← hxg]
    exact hd
  · rw [e1']
  · rw [e1']

/-- C5 witness: the concrete three-level forest w5s satisfies every
hypothesis of the C5 theorem at gid = "g" (with the explicit rank w5rk), and
the removal keeps the bookmark count. -/
theorem C5_witness :
    (w5s.groups.map (fun g => g.id)).Nodup ∧
    parentsRankedB w5rk w5s = true ∧
    rankBoundB w5rk w5s = true ∧
    bookmarkRefsOkB w5s = true ∧
    parentRefsOkB w5s = true ∧
    w5g ∈ w5s.groups ∧ w5g.id = "g" ∧
    (removeGroup w5s "g").bookmarks.length = w5s.bookmarks.length :=
  ⟨by decide, by decide, by decide, by decide, by decide, by decide, by decide,
    (C5_removeGroup_cascade w5s "g" w5rk w5g (by decide) (by decide) (by decide)
      (by decide) (by decide) (by decide) (by decide)).2.1⟩

theorem countDefaults_applyGOp_nodefault (s : ManagerState) (op : GOp)
    (h : requestsDefault op = false) :
    countDefaults (applyGOp s op) = countDefaults s := by
  cases op with
  | createG n d p i t =>
    have hd : d = false := by simpa [requestsDefault] using h
    subst hd
    simp only [applyGOp]
    cases hr : (createGroup s n false p i t).1 with
    | none => rw [createGroup_fail_state s n false p i t hr]
    | some g =>
      rw [countDefaults_createGroup_success s n false p i t g hr]
      simp
  | setDefault gid => simp [requestsDefault] at h

theorem countP_updateFirst_one (l : List BookmarkGroup) (gid : String) (mp : Int)
    (hex : ∃ g ∈ l, g.id = gid)
    (hzero : l.countP (fun g => g.isDefault) = 0) :
    (updateFirst (fun g => decide (g.id = gid))
      (fun g => { g with isDefault := true, priority := some mp }) l).countP
      (fun g => g.isDefault) = 1 := by
  induction l with
  | nil =>
    obtain ⟨g, hg, _⟩ := hex
    exact absurd hg (List.not_mem_nil g)
  | cons a l ih =>
    rw [List.countP_cons] at hzero
    have hl0 : l.countP (fun g => g.isDefault) = 0 :=
      Nat.eq_zero_of_add_eq_zero_right hzero
    by_cases ha : a.id = gid
    · simp only [updateFirst, if_pos (by simp [ha] : decide (a.id = gid) = true)]
      rw [List.countP_cons]
      simp [hl0]
    · simp only [updateFirst, if_neg (by simp [ha] : ¬ decide (a.id = gid) = true)]
      rw [List.countP_cons]
      have hex2 : ∃ g ∈ l, g.id = gid := by
        obtain ⟨g, hg, hgid⟩ := hex
        rcases List.mem_cons.mp hg with rfl | hgl
        · exact absurd hgid ha
        · exact ⟨g, hgl, hgid⟩
      rw [ih hex2 hl0]
      omega

theorem countDefaults_setGroupAsDefault_found (s : ManagerState) (gid : String)
    (hex : ∃ g ∈ s.groups, g.id = gid) :
    countDefaults (setGroupAsDefault s gid) = 1 := by
  obtain ⟨g, hg, hgid⟩ := hex
  have hmem2 : ({ g with isDefault := false } : BookmarkGroup) ∈
      s.groups.map (fun g => { g with isDefault := false }) :=
    List.mem_map.mpr ⟨g, hg, rfl⟩
  have hzero : (s.groups.map (fun g => { g with isDefault := false })).countP
      (fun g => g.isDefault) = 0 := by
    rw [List.countP_eq_zero]
    intro a ha
    rw [List.mem_map] at ha
    obtain ⟨b, _, rfl⟩ := ha
    simp
  simp only [setGroupAsDefault]
  cases hf : (s.groups.map (fun g => { g with isDefault := false })).find?
      (fun g => decide (g.id = gid)) with
  | none =>
    exfalso
    have hno := List.find?_eq_none.mp hf _ hmem2
    exact hno (by simp [hgid])
  | some g2 =>
    simp only [countDefaults]
    exact countP_updateFirst_one _ gid _
      ⟨{ g with isDefault := false }, hmem2, by simp [hgid]⟩ hzero

/-- C2 amended: at most one group ever carries the default flag — any
sequence of `createGroup` / `setGroupAsDefault` calls preserves
`countDefaults ≤ 1`; a sequence in which no default was ever requested keeps
zero defaults; a *successful* `createGroup` with the default flag, and a
`setGroupAsDefault` on an *existing* id, each leave exactly one default.
But "exactly one after any sequence in which a default was requested" fails:
a `setGroupAsDefault` on a missing id (or a failing `createGroup`) clears
every flag and sets none. -/
theorem C2_amended :
    (∀ (ops : List GOp) (s : ManagerState),
      countDefaults s ≤ 1 → countDefaults (runGOps s ops) ≤ 1) ∧
    (∀ (ops : List GOp) (s : ManagerState),
      countDefaults s = 0 → (∀ op ∈ ops, requestsDefault op = false) →
      countDefaults (runGOps s ops) = 0) ∧
    (∀ (s : ManagerState) (n : String) (p : Option String) (i : String) (t : Nat),
      (createGroup s n true p i t).1.isSome = true →
      countDefaults (createGroup s n true p i t).2 = 1) ∧
    (∀ (s : ManagerState) (gid : String),
      (∃ g ∈ s.groups, g.id = gid) →
      countDefaults (setGroupAsDefault s gid) = 1) := by
  refine ⟨?_, ?_, ?_, countDefaults_setGroupAsDefault_found⟩
  · intro ops
    induction ops with
    | nil => intro s h; exact h
    | cons op rest ih =>
      intro s h
      exact ih (applyGOp s op) (countDefaults_applyGOp_le s op h)
  · intro ops
    induction ops with
    | nil => intro s h _; exact h
    | cons op rest ih =>
      intro s h hreq
      have hop : requestsDefault op = false := hreq op (List.mem_cons_self op rest)
      have hstep : countDefaults (applyGOp s op) = countDefaults s :=
        countDefaults_applyGOp_nodefault s op hop
      have := ih (applyGOp s op) (by rw [hstep]; exact h)
        (fun o ho => hreq o (List.mem_cons_of_mem op ho))
      exact this
  · intro s n p i t h
    rw [Option.isSome_iff_exists] at h
    obtain ⟨g, hg⟩ := h
    rw [countDefaults_createGroup_success s n true p i t g hg]
    simp

/-- Witness for C2 at concrete op sequences: the invariant after a successful
default creation, zero defaults when none was requested, and exactly one
after `setGroupAsDefault` on an existing id. -/
theorem C2_witness :
    countDefaults (runGOps ⟨[], []⟩ [GOp.createG "a" true none "g1" 0]) ≤ 1 ∧
    countDefaults (runGOps ⟨[], []⟩ [GOp.createG "b" false none "g2" 0]) = 0 ∧
    countDefaults (setGroupAsDefault
      ⟨[], [⟨"g1", "a", true, 0, none, some 1⟩]⟩ "g1") = 1 :=
  ⟨C2_amended.1 [GOp.createG "a" true none "g1" 0] ⟨[], []⟩ (by decide),
   C2_amended.2.1 [GOp.createG "b" false none "g2" 0] ⟨[], []⟩ (by decide)
     (by decide),
   C2_amended.2.2.2 ⟨[], [⟨"g1", "a", true, 0, none, some 1⟩]⟩ "g1"
     ⟨⟨"g1", "a", true, 0, none, some 1⟩, by decide, rfl⟩⟩

/-- C4 counterexample: on the reachable state c4s (four ordinary
`createGroup` calls) the displayed Ordering-Policy order of the target
siblings under "p" is [g2, g1] before the move; after
`moveGroupToParent("x", "p", "g2")` — a successful move — it is
[g1, x, g2].  The moved group does sit immediately before "g2", but the
remaining siblings' displayed relative order is reversed, refuting the
original claim's "remaining target siblings keep their prior relative
order". -/
theorem C4_counterexample :
    (sortGroups (bucketOf c4s (some "p"))).map (fun g => g.id) = ["g2", "g1"] ∧
    (sortGroups (bucketOf (moveGroupToParent c4s "x" (some "p") (some "g2"))
        (some "p"))).map (fun g => g.id) = ["g1", "x", "g2"] := by decide
